import Mathlib

/-!
Shallow embedding of the VedhaVriddhi fixed-income trading engine core
(`src/backend/trading-engine`): the data model (`types.rs`), the matching
engine (`engine/matching.rs`), the position ledger
(`engine/position_manager.rs`), the risk gate (`engine/risk_manager.rs`)
and the engine facade (`engine/mod.rs`), together with theorems settling
the spec claims about them.

Modelling conventions:
- `rust_decimal::Decimal` (exact decimal arithmetic) is embedded as `Rat`.
- `Uuid` identifiers are embedded as `Nat`; the nondeterministic
  `Uuid::new_v4()` for trades is modelled by a fresh-id counter threaded
  through the matching functions.
- `DateTime<Utc>` timestamps are embedded as `Nat` and `Utc::now()` is a
  `now : Nat` parameter; no claim depends on clock values.
- `DashMap` / `BTreeMap` are embedded as association lists; the `BTreeMap`
  price and symbol keys are kept in ascending key order, matching its
  iteration order (`iter_mut` ascending, `iter_mut().rev()` descending).
- `VecDeque` is a `List` whose head is the front of the deque.
- `format!` error payloads keep the literal part of the message; the
  interpolated values are elided (no claim inspects message text).
- The broadcast event bus, metrics counters and log lines are pure
  fire-and-forget effects in the source (`let _ = event_sender.send(...)`;
  publication never blocks or fails the match) and are not part of the
  state; they are omitted from the embedding, which no claim here
  inspects.
-/

set_option maxRecDepth 100000

namespace VV

/-! ## types.rs -/

inductive OrderSide
  | Buy
  | Sell
deriving DecidableEq, Repr

inductive OrderType
  | Market
  | Limit
  | Stop
  | StopLimit
  | IcebergLimit (display_quantity : Rat)
  | FillOrKill
  | ImmediateOrCancel
  | GoodTillDate (expiry : Nat)
  | PostOnly
deriving DecidableEq, Repr

inductive OrderStatus
  | Pending
  | PartiallyFilled
  | Filled
  | Cancelled
  | Rejected
  | Expired
deriving DecidableEq, Repr

inductive TimeInForce
  | GoodTillCancel
  | ImmediateOrCancel
  | FillOrKill
  | GoodTillDate (t : Nat)
  | GoodForDay
deriving DecidableEq, Repr

structure Order where
  id : Nat
  client_order_id : String
  symbol : String
  side : OrderSide
  order_type : OrderType
  quantity : Rat
  price : Option Rat
  filled_quantity : Rat
  remaining_quantity : Rat
  status : OrderStatus
  timestamp : Nat
  user_id : Nat
  account_id : Nat
  time_in_force : TimeInForce
deriving DecidableEq, Repr

inductive TradeType
  | Regular
  | Block
  | Repo
  | ReverseRepo
deriving DecidableEq, Repr

structure Trade where
  id : Nat
  symbol : String
  buyer_order_id : Nat
  seller_order_id : Nat
  quantity : Rat
  price : Rat
  timestamp : Nat
  trade_type : TradeType
deriving DecidableEq, Repr

structure Position where
  symbol : String
  account_id : Nat
  quantity : Rat
  average_price : Rat
  market_value : Rat
  unrealized_pnl : Rat
  realized_pnl : Rat
  last_updated : Nat
deriving DecidableEq, Repr

structure RiskLimits where
  account_id : Nat
  max_position_size : Rat
  max_order_value : Rat
  max_daily_loss : Rat
  concentration_limit : Rat
  var_limit : Rat
deriving DecidableEq, Repr

inductive TradingError
  | OrderNotFound (s : String)
  | InsufficientBalance (required available : Rat)
  | RiskLimitExceeded (s : String)
  | InvalidOrder (s : String)
  | MarketClosed
  | InternalError (s : String)
deriving DecidableEq, Repr

/-! ## Association-list helpers (for `DashMap` / `BTreeMap` values) -/

/-- Lookup in an association list (`map.get(&k)`). -/
def lookupA {κ α : Type} [DecidableEq κ] (m : List (κ × α)) (k : κ) : Option α :=
  (m.find? (fun e => e.1 = k)).map (·.2)

/-- In-place update of the value at a present key (`get_mut` then mutate). -/
def updateA {κ α : Type} [DecidableEq κ] (m : List (κ × α)) (k : κ) (f : α → α) :
    List (κ × α) :=
  m.map (fun e => if e.1 = k then (e.1, f e.2) else e)

/-- Insert-or-replace (`map.insert(k, v)`). -/
def insertA {κ α : Type} [DecidableEq κ] (m : List (κ × α)) (k : κ) (v : α) :
    List (κ × α) :=
  if (m.find? (fun e => e.1 = k)).isSome then updateA m k (fun _ => v)
  else m ++ [(k, v)]

/-- Remove a key (`map.remove(&k)` for its effect on the map). -/
def removeA {κ α : Type} [DecidableEq κ] (m : List (κ × α)) (k : κ) : List (κ × α) :=
  m.filter (fun e => ¬ e.1 = k)

/-! ## position_manager.rs -/

/-- The position ledger: `DashMap<(Uuid, String), Position>`. -/
abbrev PosMap := List ((Nat × String) × Position)

/-- `PositionManager::get_current_price`: the stub always returns `None`
(the caller then falls back to the trade price). -/
def get_current_price (_symbol : String) : Option Rat := none

/-- `PositionManager::update_position_for_trade`. -/
def update_position_for_trade (positions : PosMap) (key : Nat × String)
    (trade : Trade) (side : OrderSide) (now : Nat) : PosMap :=
  let account_id := key.1
  let symbol := key.2
  let quantity_change : Rat :=
    match side with
    | OrderSide.Buy => trade.quantity
    | OrderSide.Sell => -trade.quantity
  match lookupA positions (account_id, symbol) with
  | some position =>
      let old_quantity := position.quantity
      let new_quantity := old_quantity + quantity_change
      let position :=
        if new_quantity ≠ 0 then
          let total_cost := old_quantity * position.average_price +
            |quantity_change| * trade.price
          { position with average_price := total_cost / |new_quantity| }
        else position
      let position := { position with quantity := new_quantity, last_updated := now }
      let current_price := (get_current_price symbol).getD trade.price
      let position := { position with
        market_value := new_quantity * current_price,
        unrealized_pnl := (current_price - position.average_price) * new_quantity }
      updateA positions (account_id, symbol) (fun _ => position)
  | none =>
      let position : Position :=
        { symbol := symbol
          account_id := account_id
          quantity := quantity_change
          average_price := trade.price
          market_value := quantity_change * trade.price
          unrealized_pnl := 0
          realized_pnl := 0
          last_updated := now }
      insertA positions (account_id, symbol) position

/-- `PositionManager::update_position`: note the source keys both updates by
the trade's *order* ids (`trade.buyer_order_id`, `trade.seller_order_id`),
not by the owning accounts' ids. -/
def update_position (positions : PosMap) (trade : Trade) (now : Nat) : PosMap :=
  let buyer_key := (trade.buyer_order_id, trade.symbol)
  let seller_key := (trade.seller_order_id, trade.symbol)
  let positions := update_position_for_trade positions buyer_key trade OrderSide.Buy now
  update_position_for_trade positions seller_key trade OrderSide.Sell now

/-! ## matching.rs -/

/-- `OrderBookEntry` (matching.rs): a resting order with its arrival
priority. -/
structure OrderBookEntry where
  order : Order
  priority : Nat
deriving DecidableEq, Repr

/-- One side of the book for one symbol:
`BTreeMap<Decimal, VecDeque<OrderBookEntry>>`, kept in ascending price
order (the map's iteration order). -/
abbrev SideBook := List (Rat × List OrderBookEntry)

/-- All books for one side: `BTreeMap<String, SideBook>` in ascending
symbol order is not relied upon, so any association list works. -/
abbrev Books := List (String × SideBook)

/-- `MatchingEngine` state: both book sides, the order index
`DashMap<Uuid, (String, Decimal, OrderSide)>`, the priority counter, and
the fresh-trade-id counter modelling `Uuid::new_v4()`. -/
structure MatchingEngine where
  buy_orders : Books
  sell_orders : Books
  order_index : List (Nat × (String × Rat × OrderSide))
  next_priority : Nat
  next_trade_id : Nat
deriving DecidableEq, Repr

/-- Result of the inner `while let Some(entry) = price_level.pop_front()`
loop of `match_buy_order` / `match_sell_order` on one price level. -/
structure LevelResult where
  order : Order
  queue : List OrderBookEntry
  trades : List Trade
  removed : List Nat
  next_trade_id : Nat
deriving DecidableEq, Repr

/-- The inner while-loop of `MatchingEngine::match_buy_order` on the price
level `price`. In the source, after a resting order is partially filled it
is pushed back to the front and the loop re-enters: the next pop sees the
incoming order's `remaining_quantity <= 0` (the fill was `min` of the two
remainders and the resting remainder was strictly larger), pushes the
entry back and breaks; that re-entry is inlined here so the recursion is
structural. -/
def matchBuyLevel (now : Nat) (price : Rat) (buy_order : Order) :
    List OrderBookEntry → Nat → LevelResult
  | [], tid => ⟨buy_order, [], [], [], tid⟩
  | sell_entry :: rest, tid =>
    if buy_order.remaining_quantity ≤ 0 then
      ⟨buy_order, sell_entry :: rest, [], [], tid⟩
    else
      let trade_quantity := min buy_order.remaining_quantity
        sell_entry.order.remaining_quantity
      let trade_price := price
      let trade : Trade :=
        { id := tid
          symbol := buy_order.symbol
          buyer_order_id := buy_order.id
          seller_order_id := sell_entry.order.id
          quantity := trade_quantity
          price := trade_price
          timestamp := now
          trade_type := TradeType.Regular }
      let buy_order' := { buy_order with
        remaining_quantity := buy_order.remaining_quantity - trade_quantity
        filled_quantity := buy_order.filled_quantity + trade_quantity
        status :=
          if buy_order.remaining_quantity - trade_quantity ≤ 0 then
            OrderStatus.Filled
          else OrderStatus.PartiallyFilled }
      let sell_order' := { sell_entry.order with
        remaining_quantity := sell_entry.order.remaining_quantity - trade_quantity
        filled_quantity := sell_entry.order.filled_quantity + trade_quantity
        status :=
          if sell_entry.order.remaining_quantity - trade_quantity ≤ 0 then
            OrderStatus.Filled
          else OrderStatus.PartiallyFilled }
      if sell_entry.order.remaining_quantity - trade_quantity ≤ 0 then
        let r := matchBuyLevel now price buy_order' rest (tid + 1)
        ⟨r.order, r.queue, trade :: r.trades, sell_entry.order.id :: r.removed,
          r.next_trade_id⟩
      else
        ⟨buy_order', { sell_entry with order := sell_order' } :: rest, [trade],
          [], tid + 1⟩

/-- Result of the `for (&price, price_level) in symbol_orders.iter_mut()`
walk: the incoming order, the remaining side book (empty price levels
pruned, as by the `prices_to_remove` cleanup), the trades in execution
order, the ids deleted from the order index, and the trade-id counter. -/
structure WalkResult where
  order : Order
  book : SideBook
  trades : List Trade
  removed : List Nat
  next_trade_id : Nat
deriving DecidableEq, Repr

/-- The price-level walk of `MatchingEngine::match_buy_order`: ascending
prices; a `Limit` buy breaks at the first level with `price > buy_price`;
emptied levels are pruned (the deferred `prices_to_remove` removal yields
the same final map). -/
def matchBuyLevels (now : Nat) (buy_order : Order) :
    SideBook → Nat → WalkResult
  | [], tid => ⟨buy_order, [], [], [], tid⟩
  | (price, price_level) :: rest, tid =>
    if (match buy_order.price with
        | some buy_price => decide (price > buy_price)
        | none => false) then
      ⟨buy_order, (price, price_level) :: rest, [], [], tid⟩
    else
      let r := matchBuyLevel now price buy_order price_level tid
      let keep : SideBook := if r.queue.isEmpty then [] else [(price, r.queue)]
      if r.order.remaining_quantity ≤ 0 then
        ⟨r.order, keep ++ rest, r.trades, r.removed, r.next_trade_id⟩
      else
        let w := matchBuyLevels now r.order rest r.next_trade_id
        ⟨w.order, keep ++ w.book, r.trades ++ w.trades, r.removed ++ w.removed,
          w.next_trade_id⟩

/-- The inner while-loop of `MatchingEngine::match_sell_order` on one buy
price level (mirror of `matchBuyLevel`). -/
def matchSellLevel (now : Nat) (price : Rat) (sell_order : Order) :
    List OrderBookEntry → Nat → LevelResult
  | [], tid => ⟨sell_order, [], [], [], tid⟩
  | buy_entry :: rest, tid =>
    if sell_order.remaining_quantity ≤ 0 then
      ⟨sell_order, buy_entry :: rest, [], [], tid⟩
    else
      let trade_quantity := min sell_order.remaining_quantity
        buy_entry.order.remaining_quantity
      let trade_price := price
      let trade : Trade :=
        { id := tid
          symbol := sell_order.symbol
          buyer_order_id := buy_entry.order.id
          seller_order_id := sell_order.id
          quantity := trade_quantity
          price := trade_price
          timestamp := now
          trade_type := TradeType.Regular }
      let sell_order' := { sell_order with
        remaining_quantity := sell_order.remaining_quantity - trade_quantity
        filled_quantity := sell_order.filled_quantity + trade_quantity
        status :=
          if sell_order.remaining_quantity - trade_quantity ≤ 0 then
            OrderStatus.Filled
          else OrderStatus.PartiallyFilled }
      let buy_order' := { buy_entry.order with
        remaining_quantity := buy_entry.order.remaining_quantity - trade_quantity
        filled_quantity := buy_entry.order.filled_quantity + trade_quantity
        status :=
          if buy_entry.order.remaining_quantity - trade_quantity ≤ 0 then
            OrderStatus.Filled
          else OrderStatus.PartiallyFilled }
      if buy_entry.order.remaining_quantity - trade_quantity ≤ 0 then
        let r := matchSellLevel now price sell_order' rest (tid + 1)
        ⟨r.order, r.queue, trade :: r.trades, buy_entry.order.id :: r.removed,
          r.next_trade_id⟩
      else
        ⟨sell_order', { buy_entry with order := buy_order' } :: rest, [trade],
          [], tid + 1⟩

/-- The price-level walk of `MatchingEngine::match_sell_order`. The source
iterates `symbol_orders.iter_mut().rev()` (descending prices); this
function therefore takes and returns the side book in *descending* price
order (the caller reverses). A `Limit` sell breaks at the first level with
`price < sell_price`. -/
def matchSellLevels (now : Nat) (sell_order : Order) :
    SideBook → Nat → WalkResult
  | [], tid => ⟨sell_order, [], [], [], tid⟩
  | (price, price_level) :: rest, tid =>
    if (match sell_order.price with
        | some sell_price => decide (price < sell_price)
        | none => false) then
      ⟨sell_order, (price, price_level) :: rest, [], [], tid⟩
    else
      let r := matchSellLevel now price sell_order price_level tid
      let keep : SideBook := if r.queue.isEmpty then [] else [(price, r.queue)]
      if r.order.remaining_quantity ≤ 0 then
        ⟨r.order, keep ++ rest, r.trades, r.removed, r.next_trade_id⟩
      else
        let w := matchSellLevels now r.order rest r.next_trade_id
        ⟨w.order, keep ++ w.book, r.trades ++ w.trades, r.removed ++ w.removed,
          w.next_trade_id⟩

/-- `MatchingEngine::match_buy_order`: looks up the symbol's sell book (no
book, no trades), walks it, writes the surviving levels back and deletes
fully-filled resting orders from the index. Returns the engine, the
mutated incoming order, and the trades. -/
def MatchingEngine.match_buy_order (eng : MatchingEngine) (buy_order : Order)
    (now : Nat) : MatchingEngine × Order × List Trade :=
  match lookupA eng.sell_orders buy_order.symbol with
  | none => (eng, buy_order, [])
  | some symbol_orders =>
      let w := matchBuyLevels now buy_order symbol_orders eng.next_trade_id
      ({ eng with
          sell_orders := updateA eng.sell_orders buy_order.symbol (fun _ => w.book)
          order_index := eng.order_index.filter (fun e => ¬ e.1 ∈ w.removed)
          next_trade_id := w.next_trade_id },
        w.order, w.trades)

/-- `MatchingEngine::match_sell_order` (mirror; the buy book is walked in
descending price order via `reverse`). -/
def MatchingEngine.match_sell_order (eng : MatchingEngine) (sell_order : Order)
    (now : Nat) : MatchingEngine × Order × List Trade :=
  match lookupA eng.buy_orders sell_order.symbol with
  | none => (eng, sell_order, [])
  | some symbol_orders =>
      let w := matchSellLevels now sell_order symbol_orders.reverse eng.next_trade_id
      ({ eng with
          buy_orders := (updateA eng.buy_orders sell_order.symbol
            (fun _ => w.book.reverse))
          order_index := eng.order_index.filter (fun e => ¬ e.1 ∈ w.removed)
          next_trade_id := w.next_trade_id },
        w.order, w.trades)

/-- `MatchingEngine::match_order`: dispatch on side. -/
def MatchingEngine.match_order (eng : MatchingEngine) (order : Order)
    (now : Nat) : MatchingEngine × Order × List Trade :=
  match order.side with
  | OrderSide.Buy => eng.match_buy_order order now
  | OrderSide.Sell => eng.match_sell_order order now

/-- Sorted insertion into a side book at `price`, appending to the back of
the level's FIFO (`entry(price).or_insert_with(VecDeque::new).push_back`). -/
def insertLevel (book : SideBook) (price : Rat) (entry : OrderBookEntry) :
    SideBook :=
  match book with
  | [] => [(price, [entry])]
  | (p, q) :: rest =>
    if price < p then (price, [entry]) :: (p, q) :: rest
    else if price = p then (p, q ++ [entry]) :: rest
    else (p, q) :: insertLevel rest price entry

/-- Update a symbol's side book, creating it when absent
(`entry(symbol).or_insert_with(BTreeMap::new)`). -/
def updateSymbol (books : Books) (symbol : String) (f : SideBook → SideBook) :
    Books :=
  if (books.find? (fun e => e.1 = symbol)).isSome then
    updateA books symbol f
  else books ++ [(symbol, f [])]

/-- `MatchingEngine::add_to_order_book`. The priority counter is
incremented *before* the price check, so a failed insertion still advances
it; an order without a price is rejected with
`InvalidOrder("Cannot add market order to book")`. -/
def MatchingEngine.add_to_order_book (eng : MatchingEngine) (order : Order) :
    MatchingEngine × Except TradingError Unit :=
  let priority := eng.next_priority + 1
  let eng := { eng with next_priority := priority }
  match order.price with
  | none => (eng, Except.error (TradingError.InvalidOrder
      "Cannot add market order to book"))
  | some price =>
      let entry : OrderBookEntry := ⟨order, priority⟩
      let eng :=
        match order.side with
        | OrderSide.Buy =>
            { eng with buy_orders := (updateSymbol eng.buy_orders order.symbol
                (fun b => insertLevel b price entry)) }
        | OrderSide.Sell =>
            { eng with sell_orders := (updateSymbol eng.sell_orders order.symbol
                (fun b => insertLevel b price entry)) }
      ({ eng with order_index := (insertA eng.order_index order.id
          (order.symbol, price, order.side)) },
        Except.ok ())

/-- `MatchingEngine::process_order`: match, then rest any remainder. When
`add_to_order_book` fails (a `Market` order with remainder), the error
propagates but the book mutations made by matching persist, and the trades
already executed are lost to the caller. -/
def MatchingEngine.process_order (eng : MatchingEngine) (order : Order)
    (now : Nat) : MatchingEngine × Except TradingError (List Trade) :=
  let remaining_order := order
  let (eng, remaining_order, trades) := eng.match_order remaining_order now
  if remaining_order.remaining_quantity > 0 then
    match eng.add_to_order_book remaining_order with
    | (eng, Except.error e) => (eng, Except.error e)
    | (eng, Except.ok _) => (eng, Except.ok trades)
  else (eng, Except.ok trades)

/-- Remove `order_id` from the price level at `price`, pruning the level if
it empties (`retain` then `remove` in `MatchingEngine::cancel_order`). -/
def removeFromBook (book : SideBook) (price : Rat) (order_id : Nat) : SideBook :=
  book.foldr
    (fun (lvl : Rat × List OrderBookEntry) acc =>
      if lvl.1 = price then
        let q := lvl.2.filter (fun e => ¬ e.order.id = order_id)
        if q.isEmpty then acc else (lvl.1, q) :: acc
      else lvl :: acc)
    []

/-- `MatchingEngine::cancel_order`: remove from the index; when the id was
indexed, remove the entry from the recorded side book and report `true`,
else `false`. (The Rust return type is `Result<bool>` but the function
never errors.) -/
def MatchingEngine.cancel_order (eng : MatchingEngine) (order_id : Nat) :
    MatchingEngine × Bool :=
  match lookupA eng.order_index order_id with
  | some (symbol, price, side) =>
      let eng := { eng with order_index := removeA eng.order_index order_id }
      let eng :=
        match side with
        | OrderSide.Buy =>
            { eng with buy_orders := (updateA eng.buy_orders symbol
                (fun b => removeFromBook b price order_id)) }
        | OrderSide.Sell =>
            { eng with sell_orders := (updateA eng.sell_orders symbol
                (fun b => removeFromBook b price order_id)) }
      (eng, true)
  | none => (eng, false)

/-! ## risk_manager.rs -/

/-- `RiskManager::get_risk_limits`: stored limits for the account, or the
documented defaults. (The Rust return type is `Result<RiskLimits>` but the
function never errors.) -/
def get_risk_limits (risk_limits : List (Nat × RiskLimits)) (account_id : Nat) :
    RiskLimits :=
  match lookupA risk_limits account_id with
  | some limits => limits
  | none =>
      { account_id := account_id
        max_position_size := 100000000
        max_order_value := 50000000
        max_daily_loss := 1000000
        concentration_limit := 1 / 4
        var_limit := 5000000 }

/-- `RiskManager::check_order_size`: `quantity * price.unwrap_or(0)` must
not exceed `max_order_value`. -/
def check_order_size (order : Order) (limits : RiskLimits) :
    Except TradingError Unit :=
  let order_value := order.quantity * (order.price.getD 0)
  if order_value > limits.max_order_value then
    Except.error (TradingError.RiskLimitExceeded "Order value exceeds limit")
  else Except.ok ()

/-- `RiskManager::check_position_limits` (simplified check in the source:
the submitted quantity alone against `max_position_size`). -/
def check_position_limits (order : Order) (limits : RiskLimits) :
    Except TradingError Unit :=
  if order.quantity > limits.max_position_size then
    Except.error (TradingError.RiskLimitExceeded
      "Order quantity exceeds position limit")
  else Except.ok ()

/-- `RiskManager::check_order`: size, position, then the stubbed
concentration and daily-loss checks (which always pass). -/
def check_order (risk_limits : List (Nat × RiskLimits)) (order : Order) :
    Except TradingError Unit := do
  let limits := get_risk_limits risk_limits order.account_id
  check_order_size order limits
  check_position_limits order limits
  Except.ok ()

/-! ## mod.rs — the engine facade -/

/-- `TradingEngine` facade state: the matching engine, the authoritative
order registry `DashMap<Uuid, Order>`, the recent-trades `VecDeque`
(bounded at 100000), the position ledger, and the risk-limit table. -/
structure TradingEngine where
  matching_engine : MatchingEngine
  orders : List (Nat × Order)
  trades : List Trade
  positions : PosMap
  risk_limits : List (Nat × RiskLimits)
deriving DecidableEq, Repr

/-- A freshly constructed engine (`TradingEngine::new`). -/
def TradingEngine.empty : TradingEngine :=
  { matching_engine :=
      { buy_orders := []
        sell_orders := []
        order_index := []
        next_priority := 0
        next_trade_id := 0 }
    orders := []
    trades := []
    positions := []
    risk_limits := [] }

/-- `TradingEngine::validate_order`. -/
def validate_order (order : Order) : Except TradingError Unit :=
  if order.quantity ≤ 0 then
    Except.error (TradingError.InvalidOrder "Quantity must be positive")
  else if (match order.price with
           | some price => decide (price ≤ 0)
           | none => false) then
    Except.error (TradingError.InvalidOrder "Price must be positive")
  else if order.symbol.isEmpty then
    Except.error (TradingError.InvalidOrder "Symbol cannot be empty")
  else
    match order.order_type with
    | OrderType.Limit =>
        if order.price.isNone then
          Except.error (TradingError.InvalidOrder "Limit orders must have a price")
        else Except.ok ()
    | OrderType.Market =>
        if order.price.isSome then
          Except.error (TradingError.InvalidOrder "Market orders cannot have a price")
        else Except.ok ()
    | _ => Except.ok ()

/-- Append one trade to the recent-trades buffer, evicting the oldest past
100000 entries. -/
def pushTrade (trades : List Trade) (t : Trade) : List Trade :=
  let trades := trades ++ [t]
  if trades.length > 100000 then trades.tail else trades

/-- `TradingEngine::submit_order`: validate, risk-check, stamp timestamp
and `remaining_quantity := quantity`, register the order, match, apply
each trade to the position ledger, record the trades. Early failures
return before any state is touched; a `process_order` error (the unfilled
`Market` path) propagates after the matching mutations and the registry
insertion have already happened, and its trades are lost. -/
def TradingEngine.submit_order (eng : TradingEngine) (order : Order)
    (now : Nat) : TradingEngine × Except TradingError Nat :=
  match validate_order order with
  | Except.error e => (eng, Except.error e)
  | Except.ok _ =>
  match check_order eng.risk_limits order with
  | Except.error e => (eng, Except.error e)
  | Except.ok _ =>
      let order := { order with
        timestamp := now
        remaining_quantity := order.quantity }
      let eng := { eng with orders := insertA eng.orders order.id order }
      let (me, res) := eng.matching_engine.process_order order now
      let eng := { eng with matching_engine := me }
      match res with
      | Except.error e => (eng, Except.error e)
      | Except.ok trades =>
          let eng := { eng with positions :=
            (trades.foldl (fun ps t => update_position ps t now) eng.positions) }
          let eng := { eng with trades := (trades.foldl pushTrade eng.trades) }
          (eng, Except.ok order.id)

/-- `TradingEngine::cancel_order`: a registered order is re-inserted with
status `Cancelled` (unconditionally, whatever its previous status), the
matching engine's cancel runs, and `Ok(true)` is returned; an unknown id
yields `Err(OrderNotFound)`. -/
def TradingEngine.cancel_order (eng : TradingEngine) (order_id : Nat) :
    TradingEngine × Except TradingError Bool :=
  match lookupA eng.orders order_id with
  | some order =>
      let order := { order with status := OrderStatus.Cancelled }
      let eng := { eng with orders :=
        (insertA (removeA eng.orders order_id) order_id order) }
      let (me, _) := eng.matching_engine.cancel_order order_id
      ({ eng with matching_engine := me }, Except.ok true)
  | none =>
      (eng, Except.error (TradingError.OrderNotFound (toString order_id)))

/-- `TradingEngine::get_order`. -/
def TradingEngine.get_order (eng : TradingEngine) (order_id : Nat) :
    Option Order :=
  lookupA eng.orders order_id

/-- A client-visible engine operation: a submission (with its server
timestamp) or a cancellation. -/
inductive EngineOp
  | submit (order : Order) (now : Nat)
  | cancel (order_id : Nat)
deriving DecidableEq, Repr

/-- Apply one operation to the engine state (the result value is
discarded; the state is kept whether the call succeeded or failed). -/
def applyOp (eng : TradingEngine) : EngineOp → TradingEngine
  | EngineOp.submit order now => (eng.submit_order order now).1
  | EngineOp.cancel order_id => (eng.cancel_order order_id).1

/-- Run a sequence of operations from a starting state. -/
def runOps (eng : TradingEngine) (ops : List EngineOp) : TradingEngine :=
  ops.foldl applyOp eng

/-! ## Association-list lemmas -/

theorem lookupA_nil {κ α : Type} [DecidableEq κ] (k : κ) :
    lookupA ([] : List (κ × α)) k = none := rfl

theorem lookupA_cons {κ α : Type} [DecidableEq κ] (e : κ × α)
    (rest : List (κ × α)) (k : κ) :
    lookupA (e :: rest) k = if e.1 = k then some e.2 else lookupA rest k := by
  by_cases h : e.1 = k
  · simp [lookupA, List.find?_cons_of_pos, h]
  · simp [lookupA, List.find?_cons_of_neg, h]

theorem updateA_cons {κ α : Type} [DecidableEq κ] (e : κ × α)
    (rest : List (κ × α)) (k : κ) (f : α → α) :
    updateA (e :: rest) k f =
      (if e.1 = k then (e.1, f e.2) else e) :: updateA rest k f := by
  simp only [updateA, List.map]

theorem removeA_cons {κ α : Type} [DecidableEq κ] (e : κ × α)
    (rest : List (κ × α)) (k : κ) :
    removeA (e :: rest) k =
      if e.1 = k then removeA rest k else e :: removeA rest k := by
  by_cases h : e.1 = k <;> simp [removeA, List.filter_cons, h]

theorem lookupA_removeA_self {κ α : Type} [DecidableEq κ] (m : List (κ × α))
    (k : κ) : lookupA (removeA m k) k = none := by
  induction m with
  | nil => rfl
  | cons e rest ih =>
      by_cases h : e.1 = k
      · simp [removeA_cons, h, ih]
      · simp [removeA_cons, h, lookupA_cons, ih]

theorem lookupA_none_append {κ α : Type} [DecidableEq κ] (m : List (κ × α))
    (k : κ) (v : α) (h : lookupA m k = none) :
    lookupA (m ++ [(k, v)]) k = some v := by
  induction m with
  | nil => simp [lookupA_cons]
  | cons e rest ih =>
      rw [lookupA_cons] at h
      by_cases he : e.1 = k
      · simp [he] at h
      · rw [List.cons_append, lookupA_cons, if_neg he]
        exact ih (by simpa [he] using h)

theorem lookupA_append_ne {κ α : Type} [DecidableEq κ] (m : List (κ × α))
    (k k' : κ) (v : α) (h : ¬ k' = k) :
    lookupA (m ++ [(k, v)]) k' = lookupA m k' := by
  induction m with
  | nil =>
      have h2 : ¬ k = k' := fun hc => h hc.symm
      simp [lookupA_nil, lookupA_cons, h2]
  | cons e rest ih => simp [lookupA_cons, ih]

theorem lookupA_updateA_self {κ α : Type} [DecidableEq κ] (m : List (κ × α))
    (k : κ) (f : α → α) (v : α) (h : lookupA m k = some v) :
    lookupA (updateA m k f) k = some (f v) := by
  induction m with
  | nil => simp [lookupA_nil] at h
  | cons e rest ih =>
      rw [lookupA_cons] at h
      by_cases he : e.1 = k
      · rw [if_pos he] at h
        simp only [Option.some.injEq] at h
        simp [updateA_cons, lookupA_cons, he, h]
      · rw [if_neg he] at h
        simp [updateA_cons, lookupA_cons, he, ih h]

theorem lookupA_insertA_self {κ α : Type} [DecidableEq κ] (m : List (κ × α))
    (k : κ) (v : α) : lookupA (insertA m k v) k = some v := by
  unfold insertA
  by_cases h : (m.find? (fun e => e.1 = k)).isSome
  · obtain ⟨w, hw⟩ := Option.isSome_iff_exists.mp h
    rw [if_pos h]
    refine lookupA_updateA_self m k (fun _ => v) w.2 ?_
    simp [lookupA, hw]
  · have hfind : m.find? (fun e => e.1 = k) = none := by
      rcases hx : m.find? (fun e => e.1 = k) with _ | w
      · exact hx
      · exact absurd (by simp [hx]) h
    rw [if_neg h]
    exact lookupA_none_append m k v (by simp [lookupA, hfind])

theorem lookupA_updateA_ne {κ α : Type} [DecidableEq κ] (m : List (κ × α))
    (k k' : κ) (f : α → α) (h : ¬ k' = k) :
    lookupA (updateA m k f) k' = lookupA m k' := by
  induction m with
  | nil => rfl
  | cons e rest ih =>
      by_cases he : e.1 = k
      · have he2 : ¬ e.1 = k' := fun hc => h (hc.symm.trans he)
        have h2 : ¬ k = k' := fun hc => h hc.symm
        simp [updateA_cons, lookupA_cons, he, he2, h2, ih]
      · simp [updateA_cons, lookupA_cons, he, ih]

theorem lookupA_insertA_ne {κ α : Type} [DecidableEq κ] (m : List (κ × α))
    (k k' : κ) (v : α) (h : ¬ k' = k) :
    lookupA (insertA m k v) k' = lookupA m k' := by
  unfold insertA
  by_cases hs : (m.find? (fun e => e.1 = k)).isSome
  · rw [if_pos hs]
    exact lookupA_updateA_ne m k k' (fun _ => v) h
  · rw [if_neg hs]
    exact lookupA_append_ne m k k' v h

instance {ε α : Type} [DecidableEq ε] [DecidableEq α] : DecidableEq (Except ε α)
  | Except.ok a, Except.ok b =>
      if h : a = b then isTrue (by rw [h])
      else isFalse (by intro hc; cases hc; exact h rfl)
  | Except.error a, Except.error b =>
      if h : a = b then isTrue (by rw [h])
      else isFalse (by intro hc; cases hc; exact h rfl)
  | Except.ok _, Except.error _ => isFalse (by intro hc; cases hc)
  | Except.error _, Except.ok _ => isFalse (by intro hc; cases hc)

/-! ## Concrete scenario fixtures -/

/-- A well-formed limit-order template for the concrete scenarios. -/
def baseOrder : Order :=
  { id := 0
    client_order_id := "C0"
    symbol := "GSEC10Y"
    side := OrderSide.Buy
    order_type := OrderType.Limit
    quantity := 1
    price := some 1
    filled_quantity := 0
    remaining_quantity := 0
    status := OrderStatus.Pending
    timestamp := 0
    user_id := 1
    account_id := 1
    time_in_force := TimeInForce.GoodTillCancel }

/-- Resting Sell 100 @ 98.50 owned by account 10 (spec scenario 1). -/
def restingSell100 : Order :=
  { baseOrder with
    id := 1
    side := OrderSide.Sell
    quantity := 100
    price := some (197 / 2)
    account_id := 10 }

/-- Buy 100 @ 98.50 owned by account 20, fully crossing `restingSell100`. -/
def crossingBuy100 : Order :=
  { baseOrder with
    id := 2
    quantity := 100
    price := some (197 / 2)
    account_id := 20 }

/-- The engine after `restingSell100` rested. -/
def engSell100 : TradingEngine :=
  (TradingEngine.empty.submit_order restingSell100 1).1

/-- The engine after the full cross of scenario 1 (one trade of 100 @ 98.50
between orders 2 and 1). -/
def engCrossed : TradingEngine :=
  (engSell100.submit_order crossingBuy100 2).1

/-- Resting Sell 30 @ 99.00 (spec scenario 4). -/
def restingSell30 : Order :=
  { baseOrder with
    id := 1
    side := OrderSide.Sell
    quantity := 30
    price := some 99
    account_id := 11 }

/-- Market Buy 100, price-less (spec scenario 4). -/
def marketBuy100 : Order :=
  { baseOrder with
    id := 2
    order_type := OrderType.Market
    quantity := 100
    price := none
    account_id := 22 }

/-- The engine after `restingSell30` rested. -/
def engSell30 : TradingEngine :=
  (TradingEngine.empty.submit_order restingSell30 1).1

/-- A long position of 10 units at average price 100 for account 100. -/
def longPos : Position :=
  { symbol := "GSEC10Y"
    account_id := 100
    quantity := 10
    average_price := 100
    market_value := 1000
    unrealized_pnl := 0
    realized_pnl := 0
    last_updated := 0 }

/-- A trade that sells the whole `longPos` holding at 110. -/
def closingTrade : Trade :=
  { id := 0
    symbol := "GSEC10Y"
    buyer_order_id := 7
    seller_order_id := 100
    quantity := 10
    price := 110
    timestamp := 1
    trade_type := TradeType.Regular }

/-- An order submitted already carrying the terminal status `Filled`;
`validate_order` does not inspect `status`, so it registers and rests. -/
def filledStatusOrder : Order :=
  { baseOrder with id := 9, status := OrderStatus.Filled }

/-- The engine after `filledStatusOrder` was submitted (it rests on the
empty book; its registry entry keeps status `Filled`). -/
def engWithFilled : TradingEngine :=
  (TradingEngine.empty.submit_order filledStatusOrder 1).1

/-- An order failing validation (`quantity = 0`). -/
def invalidOrder : Order := { baseOrder with quantity := 0 }

/-- An order passing validation but failing the default
`max_order_value = 50_000_000` risk check (value 100,000,000). -/
def oversizedOrder : Order :=
  { baseOrder with quantity := 1000000, price := some 100 }

/-! ## Claim theorems: error handling and ledger claims -/

/-- C3: the claim says an unfilled `Market` remainder is dropped with the
order transitioning to `Cancelled` and the executed trades returned. The
code instead reaches `add_to_order_book` with a price-less order, which
returns `InvalidOrder("Cannot add market order to book")`: `submit_order`
propagates the error, the executed trade is discarded (never recorded, no
position touched), and the order's status never becomes `Cancelled` — yet
the book mutations of the match persist (the resting sell is consumed).
Evaluated at spec scenario 4 (book = Sell 30 @ 99.00, submit Market Buy
100). -/
theorem market_residual_rejected_not_cancelled :
    (engSell30.submit_order marketBuy100 2).2
        = Except.error (TradingError.InvalidOrder "Cannot add market order to book")
      ∧ (engSell30.submit_order marketBuy100 2).1.trades = []
      ∧ (engSell30.submit_order marketBuy100 2).1.positions = []
      ∧ ((engSell30.submit_order marketBuy100 2).1.get_order 2).map Order.status
          = some OrderStatus.Pending
      ∧ lookupA (engSell30.submit_order marketBuy100 2).1.matching_engine.sell_orders
          "GSEC10Y" = some [] := by
  with_unfolding_all decide

/-- C4: the claim says each trade updates the buyer's position at
`(buyer_account_id, symbol)` and the seller's at
`(seller_account_id, symbol)`. The code keys both updates by the trade's
*order* ids: after the scenario-1 cross (buyer order 2 owned by account
20, seller order 1 owned by account 10) the ledger holds keys
`(2, sym)` and `(1, sym)` and nothing at the account keys. -/
theorem positions_keyed_by_order_ids :
    engCrossed.positions.map Prod.fst = [(2, "GSEC10Y"), (1, "GSEC10Y")]
      ∧ (engCrossed.get_order 2).map Order.account_id = some 20
      ∧ (engCrossed.get_order 1).map Order.account_id = some 10
      ∧ lookupA engCrossed.positions (20, "GSEC10Y") = none
      ∧ lookupA engCrossed.positions (10, "GSEC10Y") = none
      ∧ (lookupA engCrossed.positions (2, "GSEC10Y")).map Position.quantity
          = some 100
      ∧ (lookupA engCrossed.positions (1, "GSEC10Y")).map Position.quantity
          = some (-100) := by
  with_unfolding_all decide

/-- C5: the claim says a fill that closes (or flips) a position realizes
P&L against the old average price and resets the average price. The code
never touches `realized_pnl` and, on a full close (`new_quantity = 0`),
skips the average-price branch entirely: selling the whole 10-unit
position bought at 100 for 110 leaves `realized_pnl = 0` (the claim
requires `+100`) and `average_price = 100` (the claim requires `0`). -/
theorem full_close_skips_realized_pnl :
    (lookupA
        (update_position_for_trade [((100, "GSEC10Y"), longPos)] (100, "GSEC10Y")
          closingTrade OrderSide.Sell 1)
        (100, "GSEC10Y")).map
      (fun p => (p.quantity, p.average_price, p.realized_pnl))
      = some (0, 100, 0) := by
  with_unfolding_all decide

/-- C6 counterexample: cancelling the unknown id 42 on a fresh engine
facade does NOT return `cancelled: false` — it raises
`OrderNotFound("42")`. -/
theorem cancel_unknown_id_facade_errors :
    (TradingEngine.empty.cancel_order 42).2
        = Except.error (TradingError.OrderNotFound "42")
      ∧ ¬ (TradingEngine.empty.cancel_order 42).2 = Except.ok false := by
  with_unfolding_all decide

/-- C6 amended: for an id absent from the matching engine's order index,
`MatchingEngine::cancel_order` returns `false` without error and leaves
its state unchanged; but for an id absent from the order registry, the
facade's `TradingEngine::cancel_order` returns the error
`OrderNotFound(id)` (state unchanged), not `false`. -/
theorem cancel_unknown_id_results (eng : TradingEngine) (me : MatchingEngine)
    (order_id : Nat)
    (h1 : lookupA eng.orders order_id = none)
    (h2 : lookupA me.order_index order_id = none) :
    eng.cancel_order order_id
        = (eng, Except.error (TradingError.OrderNotFound (toString order_id)))
      ∧ me.cancel_order order_id = (me, false) := by
  constructor
  · unfold TradingEngine.cancel_order
    rw [h1]
  · unfold MatchingEngine.cancel_order
    rw [h2]

/-- C6 witness: the amended behaviour at the concrete unknown id 42. -/
theorem cancel_unknown_id_results_witness :
    TradingEngine.empty.cancel_order 42
        = (TradingEngine.empty, Except.error (TradingError.OrderNotFound "42"))
      ∧ TradingEngine.empty.matching_engine.cancel_order 42
        = (TradingEngine.empty.matching_engine, false) :=
  cancel_unknown_id_results TradingEngine.empty TradingEngine.empty.matching_engine
    42 (by with_unfolding_all decide) (by with_unfolding_all decide)

/-- C7 counterexample: an order can be registered in the terminal status
`Filled` (`validate_order` never inspects `status`), and the facade's
`cancel_order` then moves it `Filled → Cancelled`: a terminal status does
transition. -/
theorem cancel_overwrites_filled_status :
    (engWithFilled.get_order 9).map Order.status = some OrderStatus.Filled
      ∧ ((engWithFilled.cancel_order 9).1.get_order 9).map Order.status
          = some OrderStatus.Cancelled := by
  with_unfolding_all decide

/-- C7 amended: the facade's `cancel_order` re-inserts any registered
order with status `Cancelled` unconditionally, whatever the previous
status; so `Pending` and `PartiallyFilled` orders become `Cancelled` as
the claim says, but terminal statuses are not protected — a registered
`Filled`, `Rejected` or `Expired` order transitions to `Cancelled` too
(only `Cancelled` itself is trivially preserved). -/
theorem cancel_sets_status_cancelled (eng : TradingEngine) (order_id : Nat)
    (o : Order) (h : lookupA eng.orders order_id = some o) :
    (eng.cancel_order order_id).1.get_order order_id
      = some { o with status := OrderStatus.Cancelled } := by
  unfold TradingEngine.cancel_order TradingEngine.get_order
  rw [h]
  exact lookupA_insertA_self (removeA eng.orders order_id) order_id
    { o with status := OrderStatus.Cancelled }

/-- C7 witness: the amended behaviour applied to the registered `Filled`
order of the counterexample scenario. -/
theorem cancel_sets_status_cancelled_witness :
    (engWithFilled.cancel_order 9).1.get_order 9
      = some { filledStatusOrder with
               timestamp := 1
               remaining_quantity := 1
               status := OrderStatus.Cancelled } :=
  cancel_sets_status_cancelled engWithFilled 9
    { filledStatusOrder with timestamp := 1, remaining_quantity := 1 } (by with_unfolding_all decide)

/-- C8: a submission that fails validation, or passes validation and fails
the risk check, returns that error and leaves the engine state exactly
unchanged: it is not registered, nothing is matched or booked, no trade is
recorded and no position is touched. -/
theorem submit_early_failure_frame (eng : TradingEngine) (order : Order)
    (now : Nat) (e : TradingError)
    (h : validate_order order = Except.error e
        ∨ (validate_order order = Except.ok ()
            ∧ check_order eng.risk_limits order = Except.error e)) :
    eng.submit_order order now = (eng, Except.error e) := by
  rcases h with h | ⟨h1, h2⟩
  · unfold TradingEngine.submit_order
    rw [h]
  · unfold TradingEngine.submit_order
    rw [h1, h2]

/-- C8 witness: a zero-quantity order (validation failure) and an
over-the-limit order (risk failure) both leave a fresh engine unchanged. -/
theorem submit_early_failure_frame_witness :
    TradingEngine.empty.submit_order invalidOrder 5
        = (TradingEngine.empty,
            Except.error (TradingError.InvalidOrder "Quantity must be positive"))
      ∧ TradingEngine.empty.submit_order oversizedOrder 5
        = (TradingEngine.empty,
            Except.error (TradingError.RiskLimitExceeded "Order value exceeds limit")) :=
  ⟨submit_early_failure_frame TradingEngine.empty invalidOrder 5 _
      (Or.inl (by with_unfolding_all decide)),
    submit_early_failure_frame TradingEngine.empty oversizedOrder 5 _
      (Or.inr ⟨by with_unfolding_all decide, by with_unfolding_all decide⟩)⟩

/-- After validation and risk both pass, the registry holds exactly the
pre-match snapshot of the submitted order (timestamp stamped,
`remaining_quantity := quantity`), whatever matching then did. -/
theorem submit_ok_orders_eq (eng : TradingEngine) (order : Order) (now : Nat)
    (hv : validate_order order = Except.ok ())
    (hr : check_order eng.risk_limits order = Except.ok ()) :
    (eng.submit_order order now).1.orders
      = insertA eng.orders order.id
          { order with timestamp := now, remaining_quantity := order.quantity } := by
  unfold TradingEngine.submit_order
  rw [hv, hr]
  try dsimp only
  split <;> rfl

/-- C10: matching never updates the order registry. After a successful
`submit_order` of a `Pending`, unfilled order, `get_order` on its id
returns the order exactly as registered before matching — status
`Pending`, `filled_quantity` 0, `remaining_quantity` equal to `quantity`
— even if the order traded during the match; and the registry entries of
every other order (in particular resting counterparties that were filled)
are untouched. -/
theorem matching_never_updates_registry (eng : TradingEngine) (order : Order)
    (now : Nat)
    (hv : validate_order order = Except.ok ())
    (hr : check_order eng.risk_limits order = Except.ok ())
    (hs : order.status = OrderStatus.Pending)
    (hf : order.filled_quantity = 0) :
    ((eng.submit_order order now).1.get_order order.id
        = some { order with timestamp := now, remaining_quantity := order.quantity })
      ∧ (∀ other, ¬ other = order.id →
          (eng.submit_order order now).1.get_order other = eng.get_order other)
      ∧ ({ order with
            timestamp := now
            remaining_quantity := order.quantity } : Order).status
          = OrderStatus.Pending
      ∧ ({ order with
            timestamp := now
            remaining_quantity := order.quantity } : Order).filled_quantity = 0 := by
  have horders := submit_ok_orders_eq eng order now hv hr
  refine ⟨?_, ?_, hs, hf⟩
  · unfold TradingEngine.get_order
    rw [horders]
    exact lookupA_insertA_self eng.orders order.id _
  · intro other hne
    unfold TradingEngine.get_order
    rw [horders]
    exact lookupA_insertA_ne eng.orders order.id other _ hne

/-- C10 witness: the scenario-1 cross. The aggressor (order 2) fully
trades, yet its registry entry still reads `Pending` with
`filled_quantity = 0`, and the filled resting order 1 keeps its original
registry entry. -/
theorem matching_never_updates_registry_witness :
    (engSell100.submit_order crossingBuy100 2).1.trades.length = 1
      ∧ (engSell100.submit_order crossingBuy100 2).1.get_order 2
          = some { crossingBuy100 with timestamp := 2, remaining_quantity := 100 }
      ∧ (engSell100.submit_order crossingBuy100 2).1.get_order 1
          = engSell100.get_order 1 :=
  ⟨by with_unfolding_all decide,
    (matching_never_updates_registry engSell100 crossingBuy100 2
        (by with_unfolding_all decide) (by with_unfolding_all decide) (by with_unfolding_all decide) (by with_unfolding_all decide)).1,
    (matching_never_updates_registry engSell100 crossingBuy100 2
        (by with_unfolding_all decide) (by with_unfolding_all decide) (by with_unfolding_all decide) (by with_unfolding_all decide)).2.1 1 (by with_unfolding_all decide)⟩

/-! ## Matching-walk lemmas (price bounds, C2) -/

/-- The inner loop never changes the incoming order's price. -/
theorem matchBuyLevel_order_price (now : Nat) (price : Rat) (o : Order)
    (q : List OrderBookEntry) (tid : Nat) :
    (matchBuyLevel now price o q tid).order.price = o.price := by
  induction q generalizing o tid with
  | nil => rfl
  | cons e rest ih =>
      simp only [matchBuyLevel]
      by_cases h0 : o.remaining_quantity ≤ 0
      · rw [if_pos h0]
      · rw [if_neg h0]
        try dsimp only
        by_cases hfull :
            e.order.remaining_quantity - min o.remaining_quantity e.order.remaining_quantity ≤ 0
        · rw [if_pos hfull]
          exact ih _ _
        · rw [if_neg hfull]

/-- Every trade emitted inside one price level carries that level's price. -/
theorem matchBuyLevel_trades_price (now : Nat) (price : Rat) (o : Order)
    (q : List OrderBookEntry) (tid : Nat) :
    ∀ t ∈ (matchBuyLevel now price o q tid).trades, t.price = price := by
  induction q generalizing o tid with
  | nil => intro t ht; simp [matchBuyLevel] at ht
  | cons e rest ih =>
      intro t ht
      simp only [matchBuyLevel] at ht
      by_cases h0 : o.remaining_quantity ≤ 0
      · rw [if_pos h0] at ht
        simp at ht
      · rw [if_neg h0] at ht
        try dsimp only at ht
        by_cases hfull :
            e.order.remaining_quantity - min o.remaining_quantity e.order.remaining_quantity ≤ 0
        · rw [if_pos hfull] at ht
          simp only [List.mem_cons] at ht
          rcases ht with ht | ht
          · rw [ht]
          · exact ih _ _ t ht
        · rw [if_neg hfull] at ht
          simp only [List.mem_singleton] at ht
          rw [ht]

/-- Every trade of the buy walk is priced at one of the book's levels. -/
theorem matchBuyLevels_trades_price_mem (now : Nat) (o : Order)
    (book : SideBook) (tid : Nat) :
    ∀ t ∈ (matchBuyLevels now o book tid).trades,
      t.price ∈ book.map Prod.fst := by
  induction book generalizing o tid with
  | nil => intro t ht; simp [matchBuyLevels] at ht
  | cons lvl rest ih =>
      intro t ht
      rcases lvl with ⟨price, q⟩
      simp only [matchBuyLevels] at ht
      by_cases hstop : (match o.price with
          | some buy_price => decide (price > buy_price)
          | none => false) = true
      · rw [if_pos hstop] at ht
        simp at ht
      · rw [if_neg hstop] at ht
        try dsimp only at ht
        by_cases hdone :
            (matchBuyLevel now price o q tid).order.remaining_quantity ≤ 0
        · rw [if_pos hdone] at ht
          try dsimp only at ht
          have := matchBuyLevel_trades_price now price o q tid t ht
          simp [this]
        · rw [if_neg hdone] at ht
          try dsimp only at ht
          simp only [List.mem_append] at ht
          rcases ht with ht | ht
          · have := matchBuyLevel_trades_price now price o q tid t ht
            simp [this]
          · have := ih _ _ t ht
            simp only [List.map_cons, List.mem_cons]
            exact Or.inr this

/-- For a `Limit` buy, every emitted trade's price is at or below the
limit: the walk consumes no strictly-worse level. -/
theorem matchBuyLevels_trades_price_le (now : Nat) (o : Order)
    (book : SideBook) (tid : Nat) (bp : Rat) (hp : o.price = some bp) :
    ∀ t ∈ (matchBuyLevels now o book tid).trades, t.price ≤ bp := by
  induction book generalizing o tid with
  | nil => intro t ht; simp [matchBuyLevels] at ht
  | cons lvl rest ih =>
      intro t ht
      rcases lvl with ⟨price, q⟩
      simp only [matchBuyLevels] at ht
      by_cases hstop : (match o.price with
          | some buy_price => decide (price > buy_price)
          | none => false) = true
      · rw [if_pos hstop] at ht
        simp at ht
      · rw [if_neg hstop] at ht
        have hle : price ≤ bp := by
          rw [hp] at hstop
          simpa using hstop
        try dsimp only at ht
        by_cases hdone :
            (matchBuyLevel now price o q tid).order.remaining_quantity ≤ 0
        · rw [if_pos hdone] at ht
          try dsimp only at ht
          have := matchBuyLevel_trades_price now price o q tid t ht
          rw [this]; exact hle
        · rw [if_neg hdone] at ht
          try dsimp only at ht
          simp only [List.mem_append] at ht
          rcases ht with ht | ht
          · have := matchBuyLevel_trades_price now price o q tid t ht
            rw [this]; exact hle
          · exact ih _ _ (by rw [matchBuyLevel_order_price]; exact hp) t ht

/-- For a `Limit` buy, every level strictly worse than the limit survives
the walk untouched. -/
theorem matchBuyLevels_worse_untouched (now : Nat) (o : Order)
    (book : SideBook) (tid : Nat) (bp : Rat) (hp : o.price = some bp) :
    ∀ lvl ∈ book, bp < lvl.1 → lvl ∈ (matchBuyLevels now o book tid).book := by
  induction book generalizing o tid with
  | nil => intro lvl h; simp at h
  | cons hd rest ih =>
      intro lvl hlvl hworse
      rcases hd with ⟨price, q⟩
      simp only [matchBuyLevels]
      by_cases hstop : (match o.price with
          | some buy_price => decide (price > buy_price)
          | none => false) = true
      · rw [if_pos hstop]
        exact hlvl
      · rw [if_neg hstop]
        have hle : price ≤ bp := by
          rw [hp] at hstop
          simpa using hstop
        have hne : ¬ lvl = (price, q) := by
          intro hc
          rw [hc] at hworse
          exact absurd (lt_of_le_of_lt hle hworse) (lt_irrefl price)
        have hmem : lvl ∈ rest := by
          rcases List.mem_cons.mp hlvl with h | h
          · exact absurd h hne
          · exact h
        try dsimp only
        by_cases hdone :
            (matchBuyLevel now price o q tid).order.remaining_quantity ≤ 0
        · rw [if_pos hdone]
          try dsimp only
          exact List.mem_append.mpr (Or.inr hmem)
        · rw [if_neg hdone]
          try dsimp only
          refine List.mem_append.mpr (Or.inr ?_)
          exact ih _ _ (by rw [matchBuyLevel_order_price]; exact hp) lvl hmem hworse

/-- If the incoming order still wants quantity after the inner loop, the
level was completely consumed. -/
theorem matchBuyLevel_rem_pos_queue (now : Nat) (price : Rat) (o : Order)
    (q : List OrderBookEntry) (tid : Nat)
    (h : 0 < (matchBuyLevel now price o q tid).order.remaining_quantity) :
    (matchBuyLevel now price o q tid).queue = [] := by
  induction q generalizing o tid with
  | nil => rfl
  | cons e rest ih =>
      simp only [matchBuyLevel] at h ⊢
      by_cases h0 : o.remaining_quantity ≤ 0
      · rw [if_pos h0] at h
        exact absurd h (not_lt.mpr h0)
      · rw [if_neg h0] at h ⊢
        try dsimp only at h ⊢
        by_cases hfull :
            e.order.remaining_quantity - min o.remaining_quantity e.order.remaining_quantity ≤ 0
        · rw [if_pos hfull] at h ⊢
          exact ih _ _ h
        · rw [if_neg hfull] at h ⊢
          exfalso
          have htq : min o.remaining_quantity e.order.remaining_quantity
              = o.remaining_quantity := by
            rcases le_total o.remaining_quantity e.order.remaining_quantity with hle | hle
            · exact min_eq_left hle
            · exact absurd (by simp [min_eq_right hle]) hfull
          dsimp only at h
          rw [htq] at h
          simp at h

/-- A `Market` buy never stops on price: if it exits the walk still
unfilled, the whole sell side of the symbol has been consumed. -/
theorem matchBuyLevels_market_exhausts (now : Nat) (o : Order)
    (book : SideBook) (tid : Nat) (hp : o.price = none)
    (h : 0 < (matchBuyLevels now o book tid).order.remaining_quantity) :
    (matchBuyLevels now o book tid).book = [] := by
  induction book generalizing o tid with
  | nil => rfl
  | cons hd rest ih =>
      rcases hd with ⟨price, q⟩
      simp only [matchBuyLevels, hp] at h ⊢
      try dsimp only at h ⊢
      by_cases hdone :
          (matchBuyLevel now price o q tid).order.remaining_quantity ≤ 0
      · rw [if_pos hdone] at h
        exact absurd h (not_lt.mpr hdone)
      · rw [if_neg hdone] at h ⊢
        try dsimp only at h ⊢
        have hq : (matchBuyLevel now price o q tid).queue = [] :=
          matchBuyLevel_rem_pos_queue now price o q tid (not_le.mp hdone)
        rw [hq]
        simp only [List.isEmpty_nil, if_true, List.nil_append]
        exact ih _ _ (by rw [matchBuyLevel_order_price]; exact hp) h

/-- The sell-side inner loop never changes the incoming order's price. -/
theorem matchSellLevel_order_price (now : Nat) (price : Rat) (o : Order)
    (q : List OrderBookEntry) (tid : Nat) :
    (matchSellLevel now price o q tid).order.price = o.price := by
  induction q generalizing o tid with
  | nil => rfl
  | cons e rest ih =>
      simp only [matchSellLevel]
      by_cases h0 : o.remaining_quantity ≤ 0
      · rw [if_pos h0]
      · rw [if_neg h0]
        try dsimp only
        by_cases hfull :
            e.order.remaining_quantity - min o.remaining_quantity e.order.remaining_quantity ≤ 0
        · rw [if_pos hfull]
          exact ih _ _
        · rw [if_neg hfull]

/-- Every trade emitted inside one buy price level carries that level's
price. -/
theorem matchSellLevel_trades_price (now : Nat) (price : Rat) (o : Order)
    (q : List OrderBookEntry) (tid : Nat) :
    ∀ t ∈ (matchSellLevel now price o q tid).trades, t.price = price := by
  induction q generalizing o tid with
  | nil => intro t ht; simp [matchSellLevel] at ht
  | cons e rest ih =>
      intro t ht
      simp only [matchSellLevel] at ht
      by_cases h0 : o.remaining_quantity ≤ 0
      · rw [if_pos h0] at ht
        simp at ht
      · rw [if_neg h0] at ht
        try dsimp only at ht
        by_cases hfull :
            e.order.remaining_quantity - min o.remaining_quantity e.order.remaining_quantity ≤ 0
        · rw [if_pos hfull] at ht
          simp only [List.mem_cons] at ht
          rcases ht with ht | ht
          · rw [ht]
          · exact ih _ _ t ht
        · rw [if_neg hfull] at ht
          simp only [List.mem_singleton] at ht
          rw [ht]

/-- Every trade of the sell walk is priced at one of the walked book's
levels. -/
theorem matchSellLevels_trades_price_mem (now : Nat) (o : Order)
    (book : SideBook) (tid : Nat) :
    ∀ t ∈ (matchSellLevels now o book tid).trades,
      t.price ∈ book.map Prod.fst := by
  induction book generalizing o tid with
  | nil => intro t ht; simp [matchSellLevels] at ht
  | cons lvl rest ih =>
      intro t ht
      rcases lvl with ⟨price, q⟩
      simp only [matchSellLevels] at ht
      by_cases hstop : (match o.price with
          | some sell_price => decide (price < sell_price)
          | none => false) = true
      · rw [if_pos hstop] at ht
        simp at ht
      · rw [if_neg hstop] at ht
        try dsimp only at ht
        by_cases hdone :
            (matchSellLevel now price o q tid).order.remaining_quantity ≤ 0
        · rw [if_pos hdone] at ht
          try dsimp only at ht
          have := matchSellLevel_trades_price now price o q tid t ht
          simp [this]
        · rw [if_neg hdone] at ht
          try dsimp only at ht
          simp only [List.mem_append] at ht
          rcases ht with ht | ht
          · have := matchSellLevel_trades_price now price o q tid t ht
            simp [this]
          · have := ih _ _ t ht
            simp only [List.map_cons, List.mem_cons]
            exact Or.inr this

/-- For a `Limit` sell, every emitted trade's price is at or above the
limit: the walk consumes no strictly-worse buy level. -/
theorem matchSellLevels_trades_price_ge (now : Nat) (o : Order)
    (book : SideBook) (tid : Nat) (sp : Rat) (hp : o.price = some sp) :
    ∀ t ∈ (matchSellLevels now o book tid).trades, sp ≤ t.price := by
  induction book generalizing o tid with
  | nil => intro t ht; simp [matchSellLevels] at ht
  | cons lvl rest ih =>
      intro t ht
      rcases lvl with ⟨price, q⟩
      simp only [matchSellLevels] at ht
      by_cases hstop : (match o.price with
          | some sell_price => decide (price < sell_price)
          | none => false) = true
      · rw [if_pos hstop] at ht
        simp at ht
      · rw [if_neg hstop] at ht
        have hge : sp ≤ price := by
          rw [hp] at hstop
          simpa using hstop
        try dsimp only at ht
        by_cases hdone :
            (matchSellLevel now price o q tid).order.remaining_quantity ≤ 0
        · rw [if_pos hdone] at ht
          try dsimp only at ht
          have := matchSellLevel_trades_price now price o q tid t ht
          rw [this]; exact hge
        · rw [if_neg hdone] at ht
          try dsimp only at ht
          simp only [List.mem_append] at ht
          rcases ht with ht | ht
          · have := matchSellLevel_trades_price now price o q tid t ht
            rw [this]; exact hge
          · exact ih _ _ (by rw [matchSellLevel_order_price]; exact hp) t ht

/-- For a `Limit` sell, every buy level strictly worse than the limit
survives the walk untouched. -/
theorem matchSellLevels_worse_untouched (now : Nat) (o : Order)
    (book : SideBook) (tid : Nat) (sp : Rat) (hp : o.price = some sp) :
    ∀ lvl ∈ book, lvl.1 < sp → lvl ∈ (matchSellLevels now o book tid).book := by
  induction book generalizing o tid with
  | nil => intro lvl h; simp at h
  | cons hd rest ih =>
      intro lvl hlvl hworse
      rcases hd with ⟨price, q⟩
      simp only [matchSellLevels]
      by_cases hstop : (match o.price with
          | some sell_price => decide (price < sell_price)
          | none => false) = true
      · rw [if_pos hstop]
        exact hlvl
      · rw [if_neg hstop]
        have hge : sp ≤ price := by
          rw [hp] at hstop
          simpa using hstop
        have hne : ¬ lvl = (price, q) := by
          intro hc
          rw [hc] at hworse
          exact absurd (lt_of_lt_of_le hworse hge) (lt_irrefl price)
        have hmem : lvl ∈ rest := by
          rcases List.mem_cons.mp hlvl with h | h
          · exact absurd h hne
          · exact h
        try dsimp only
        by_cases hdone :
            (matchSellLevel now price o q tid).order.remaining_quantity ≤ 0
        · rw [if_pos hdone]
          try dsimp only
          exact List.mem_append.mpr (Or.inr hmem)
        · rw [if_neg hdone]
          try dsimp only
          refine List.mem_append.mpr (Or.inr ?_)
          exact ih _ _ (by rw [matchSellLevel_order_price]; exact hp) lvl hmem hworse

/-- If the incoming sell still wants quantity after the inner loop, the
buy level was completely consumed. -/
theorem matchSellLevel_rem_pos_queue (now : Nat) (price : Rat) (o : Order)
    (q : List OrderBookEntry) (tid : Nat)
    (h : 0 < (matchSellLevel now price o q tid).order.remaining_quantity) :
    (matchSellLevel now price o q tid).queue = [] := by
  induction q generalizing o tid with
  | nil => rfl
  | cons e rest ih =>
      simp only [matchSellLevel] at h ⊢
      by_cases h0 : o.remaining_quantity ≤ 0
      · rw [if_pos h0] at h
        exact absurd h (not_lt.mpr h0)
      · rw [if_neg h0] at h ⊢
        try dsimp only at h ⊢
        by_cases hfull :
            e.order.remaining_quantity - min o.remaining_quantity e.order.remaining_quantity ≤ 0
        · rw [if_pos hfull] at h ⊢
          exact ih _ _ h
        · rw [if_neg hfull] at h ⊢
          exfalso
          have htq : min o.remaining_quantity e.order.remaining_quantity
              = o.remaining_quantity := by
            rcases le_total o.remaining_quantity e.order.remaining_quantity with hle | hle
            · exact min_eq_left hle
            · exact absurd (by simp [min_eq_right hle]) hfull
          try dsimp only at h
          rw [htq] at h
          simp at h

/-- A `Market` sell never stops on price: if it exits the walk still
unfilled, the whole walked buy side has been consumed. -/
theorem matchSellLevels_market_exhausts (now : Nat) (o : Order)
    (book : SideBook) (tid : Nat) (hp : o.price = none)
    (h : 0 < (matchSellLevels now o book tid).order.remaining_quantity) :
    (matchSellLevels now o book tid).book = [] := by
  induction book generalizing o tid with
  | nil => rfl
  | cons hd rest ih =>
      rcases hd with ⟨price, q⟩
      simp only [matchSellLevels, hp] at h ⊢
      try dsimp only at h ⊢
      by_cases hdone :
          (matchSellLevel now price o q tid).order.remaining_quantity ≤ 0
      · rw [if_pos hdone] at h
        exact absurd h (not_lt.mpr hdone)
      · rw [if_neg hdone] at h ⊢
        try dsimp only at h ⊢
        have hq : (matchSellLevel now price o q tid).queue = [] :=
          matchSellLevel_rem_pos_queue now price o q tid (not_le.mp hdone)
        rw [hq]
        simp only [List.isEmpty_nil, if_true, List.nil_append]
        exact ih _ _ (by rw [matchSellLevel_order_price]; exact hp) h

/-- Resting Sell 10 @ 99.00 (order 1), for direct walk fixtures. -/
def restS1 : Order :=
  { baseOrder with
    id := 1
    side := OrderSide.Sell
    quantity := 10
    price := some 99
    remaining_quantity := 10
    account_id := 10 }

/-- Resting Sell 10 @ 99.10 (order 2). -/
def restS2 : Order :=
  { restS1 with id := 2, price := some (991 / 10) }

/-- Resting Sell 10 @ 99.20 (order 3). -/
def restS3 : Order :=
  { restS1 with id := 3, price := some (992 / 10) }

/-- Resting Buy 10 @ 99.00 (order 5). -/
def restB1 : Order :=
  { restS1 with id := 5, side := OrderSide.Buy }

/-- Book entries for the fixtures, with priorities in arrival order. -/
def entryS1 : OrderBookEntry := ⟨restS1, 1⟩

def entryS2 : OrderBookEntry := ⟨restS2, 2⟩

def entryS3 : OrderBookEntry := ⟨restS3, 3⟩

def entryB1 : OrderBookEntry := ⟨restB1, 1⟩

/-- The three-level ask book of spec scenario 5: 10@99.00, 10@99.10,
10@99.20 (ascending, the `BTreeMap` iteration order). -/
def bookS5 : SideBook :=
  [(99, [entryS1]), (991 / 10, [entryS2]), (992 / 10, [entryS3])]

/-- Buy 25 @ 99.15 (order 4), the scenario-5 aggressor. -/
def buyS5 : Order :=
  { baseOrder with
    id := 4
    quantity := 25
    price := some (1983 / 20)
    remaining_quantity := 25
    account_id := 20 }

/-- Market Buy 100 (order 7) for the market-walk fixture. -/
def marketW : Order :=
  { baseOrder with
    id := 7
    order_type := OrderType.Market
    quantity := 100
    price := none
    remaining_quantity := 100
    account_id := 22 }

/-- Sell 5 @ 98.00 (order 8) crossing `restB1`. -/
def sellW : Order :=
  { baseOrder with
    id := 8
    side := OrderSide.Sell
    quantity := 5
    price := some 98
    remaining_quantity := 5
    account_id := 30 }

/-- The first trade of the scenario-5 walk: 10 @ 99.00 against order 1. -/
def tradeS5a : Trade :=
  { id := 0
    symbol := "GSEC10Y"
    buyer_order_id := 4
    seller_order_id := 1
    quantity := 10
    price := 99
    timestamp := 4
    trade_type := TradeType.Regular }

/-- The trade of the `sellW` cross: 5 @ 99.00 (the resting buy's price,
above the 98.00 limit) against order 5. -/
def tradeW : Trade :=
  { id := 0
    symbol := "GSEC10Y"
    buyer_order_id := 5
    seller_order_id := 8
    quantity := 5
    price := 99
    timestamp := 4
    trade_type := TradeType.Regular }

/-- C2: for a `Limit` order the matching walk consumes only opposite-side
levels not strictly worse than the limit (buy: `level ≤ limit`; sell:
`level ≥ limit`); strictly-worse levels survive untouched (the walk breaks
at the first such level); every emitted trade is priced at a resting
level's price (price improvement — the aggressor's limit is used only as
a bound, never as the trade price); and a `Market` order (`price = none`)
never stops on price: if it is still unfilled after the walk, the walked
side is exhausted. -/
theorem limit_walk_price_bounds (now tid : Nat) (o : Order) (book : SideBook)
    (bp : Rat) :
    (o.price = some bp →
        (∀ t ∈ (matchBuyLevels now o book tid).trades,
            t.price ≤ bp ∧ t.price ∈ book.map Prod.fst)
      ∧ (∀ lvl ∈ book, bp < lvl.1 →
            lvl ∈ (matchBuyLevels now o book tid).book)
      ∧ (∀ t ∈ (matchSellLevels now o book tid).trades,
            bp ≤ t.price ∧ t.price ∈ book.map Prod.fst)
      ∧ (∀ lvl ∈ book, lvl.1 < bp →
            lvl ∈ (matchSellLevels now o book tid).book))
    ∧ (o.price = none →
        (0 < (matchBuyLevels now o book tid).order.remaining_quantity →
            (matchBuyLevels now o book tid).book = [])
      ∧ (0 < (matchSellLevels now o book tid).order.remaining_quantity →
            (matchSellLevels now o book tid).book = [])) := by
  constructor
  · intro hp
    refine ⟨fun t ht => ⟨?_, ?_⟩, ?_, fun t ht => ⟨?_, ?_⟩, ?_⟩
    · exact matchBuyLevels_trades_price_le now o book tid bp hp t ht
    · exact matchBuyLevels_trades_price_mem now o book tid t ht
    · exact matchBuyLevels_worse_untouched now o book tid bp hp
    · exact matchSellLevels_trades_price_ge now o book tid bp hp t ht
    · exact matchSellLevels_trades_price_mem now o book tid t ht
    · exact matchSellLevels_worse_untouched now o book tid bp hp
  · intro hp
    exact ⟨matchBuyLevels_market_exhausts now o book tid hp,
      matchSellLevels_market_exhausts now o book tid hp⟩

/-- C2 witness: scenario 5 (Buy 25 @ 99.15 over asks 99.00/99.10/99.20):
its first trade is priced 99.00 ≤ 99.15 at a book level, and the 99.20
level survives untouched; the `sellW` cross trades at 99.00 ≥ its 98.00
limit; a Market Buy 100 over a 10-lot book exhausts it entirely. -/
theorem limit_walk_price_bounds_witness :
    (tradeS5a.price ≤ (1983 / 20 : Rat) ∧ tradeS5a.price ∈ bookS5.map Prod.fst)
      ∧ (992 / 10, [entryS3]) ∈ (matchBuyLevels 4 buyS5 bookS5 0).book
      ∧ ((98 : Rat) ≤ tradeW.price
          ∧ tradeW.price ∈ ([(99, [entryB1])] : SideBook).map Prod.fst)
      ∧ (matchBuyLevels 4 marketW [(99, [entryS1])] 0).book = [] :=
  ⟨((limit_walk_price_bounds 4 0 buyS5 bookS5 (1983 / 20)).1 rfl).1 tradeS5a
      (by with_unfolding_all decide),
    (((limit_walk_price_bounds 4 0 buyS5 bookS5 (1983 / 20)).1 rfl).2.1
      (992 / 10, [entryS3]) (by with_unfolding_all decide)
      (by with_unfolding_all decide)),
    (((limit_walk_price_bounds 4 0 sellW [(99, [entryB1])] 98).1 rfl).2.2.1 tradeW
      (by with_unfolding_all decide)),
    ((limit_walk_price_bounds 4 0 marketW [(99, [entryS1])] 0).2 rfl).1
      (by with_unfolding_all decide)⟩

/-! ## Price-time priority (C1) -/

/-- The entries of a side book in traversal order: price levels in list
order, FIFO inside each level. For a sorted book this is exactly
price-time priority order. -/
def flattenBook (b : SideBook) : List OrderBookEntry :=
  (b.map Prod.snd).flatten

/-- The (order id, priority) signature of a book entry. -/
def idPrio (e : OrderBookEntry) : Nat × Nat := (e.order.id, e.priority)

/-- The ask levels a buy walk may consume: price at or below the limit
(everything for a market order). -/
def eligibleBuy (limit : Option Rat) (b : SideBook) : SideBook :=
  b.filter (fun lvl => match limit with
    | some bp => decide (lvl.1 ≤ bp)
    | none => true)

/-- The bid levels a sell walk may consume: price at or above the limit
(everything for a market order). -/
def eligibleSell (limit : Option Rat) (b : SideBook) : SideBook :=
  b.filter (fun lvl => match limit with
    | some sp => decide (sp ≤ lvl.1)
    | none => true)

theorem prefix_cons_same {α : Type} (a : α) {l₁ l₂ : List α}
    (h : l₁ <+: l₂) : a :: l₁ <+: a :: l₂ := by
  rcases h with ⟨t, ht⟩
  exact ⟨t, by rw [List.cons_append, ht]⟩

theorem prefix_append_same {α : Type} (x : List α) {l₁ l₂ : List α}
    (h : l₁ <+: l₂) : x ++ l₁ <+: x ++ l₂ := by
  rcases h with ⟨t, ht⟩
  exact ⟨t, by rw [List.append_assoc, ht]⟩

/-- The inner buy loop consumes resting orders strictly from the front of
the FIFO: the sellers of its trades are a prefix of the queue's order ids;
if the incoming order is still unfilled afterwards the whole queue was
consumed; and the surviving queue is a suffix (`drop k`) of the original
queue under the (id, priority) signature — in particular a partially
filled head is pushed back in place with its priority intact. -/
theorem matchBuyLevel_consume (now : Nat) (price : Rat) (o : Order)
    (q : List OrderBookEntry) (tid : Nat) :
    ((matchBuyLevel now price o q tid).trades.map Trade.seller_order_id
        <+: q.map (fun e => e.order.id))
    ∧ (0 < (matchBuyLevel now price o q tid).order.remaining_quantity →
        (matchBuyLevel now price o q tid).trades.map Trade.seller_order_id
          = q.map (fun e => e.order.id))
    ∧ ∃ k ≤ q.length,
        (matchBuyLevel now price o q tid).queue.map idPrio
          = (q.map idPrio).drop k := by
  induction q generalizing o tid with
  | nil =>
      exact ⟨List.nil_prefix, fun _ => rfl, 0, Nat.le_refl 0, rfl⟩
  | cons e rest ih =>
      simp only [matchBuyLevel]
      by_cases h0 : o.remaining_quantity ≤ 0
      · rw [if_pos h0]
        exact ⟨List.nil_prefix, fun h => absurd h (not_lt.mpr h0),
          0, Nat.zero_le _, rfl⟩
      · rw [if_neg h0]
        try dsimp only
        by_cases hfull :
            e.order.remaining_quantity - min o.remaining_quantity e.order.remaining_quantity ≤ 0
        · rw [if_pos hfull]
          obtain ⟨ih1, ih2, k, hk, ih3⟩ := ih _ (tid + 1)
          refine ⟨?_, ?_, ?_⟩
          · exact prefix_cons_same e.order.id ih1
          · intro h
            simp only [List.map_cons]
            rw [ih2 h]
          · exact ⟨k + 1, Nat.succ_le_succ hk, ih3⟩
        · rw [if_neg hfull]
          refine ⟨?_, ?_, ?_⟩
          · exact prefix_cons_same e.order.id List.nil_prefix
          · intro h
            exfalso
            have htq : min o.remaining_quantity e.order.remaining_quantity
                = o.remaining_quantity := by
              rcases le_total o.remaining_quantity e.order.remaining_quantity with hle | hle
              · exact min_eq_left hle
              · exact absurd (by simp [min_eq_right hle]) hfull
            try dsimp only at h
            rw [htq] at h
            simp at h
          · exact ⟨0, Nat.zero_le _, rfl⟩

/-- A constant list is pairwise related by any relation that is reflexive
at the constant. -/
theorem pairwise_of_const {α : Type} (R : α → α → Prop) {l : List α} {c : α}
    (h : ∀ x ∈ l, x = c) (hR : R c c) : l.Pairwise R := by
  induction l with
  | nil => exact List.Pairwise.nil
  | cons a t ih =>
      refine List.Pairwise.cons ?_ (ih fun x hx => h x (List.mem_cons_of_mem a hx))
      intro b hb
      rw [h a (List.mem_cons_self a t), h b (List.mem_cons_of_mem a hb)]
      exact hR

/-- The buy walk consumes resting sellers in book-traversal order: the
sellers of its trades are a prefix of the eligible book's flattened order
ids; the surviving book is a suffix of the original under the
(id, priority) signature (a partially filled head is pushed back in place
with its priority intact); and if the book's prices are strictly
ascending, the trades' prices are nondecreasing (best price first). -/
theorem matchBuyLevels_priority (now : Nat) (o : Order) (book : SideBook)
    (tid : Nat) :
    ((matchBuyLevels now o book tid).trades.map Trade.seller_order_id
        <+: (flattenBook (eligibleBuy o.price book)).map (fun e => e.order.id))
    ∧ (∃ k, (flattenBook (matchBuyLevels now o book tid).book).map idPrio
          = ((flattenBook book).map idPrio).drop k)
    ∧ (book.Pairwise (fun a b => a.1 < b.1) →
        ((matchBuyLevels now o book tid).trades.map Trade.price).Pairwise
          (fun a b => a ≤ b)) := by
  induction book generalizing o tid with
  | nil =>
      exact ⟨List.nil_prefix, ⟨0, rfl⟩, fun _ => List.Pairwise.nil⟩
  | cons hd rest ih =>
      rcases hd with ⟨price, q⟩
      simp only [matchBuyLevels]
      by_cases hstop : (match o.price with
          | some buy_price => decide (price > buy_price)
          | none => false) = true
      · rw [if_pos hstop]
        exact ⟨List.nil_prefix, ⟨0, rfl⟩, fun _ => List.Pairwise.nil⟩
      · rw [if_neg hstop]
        have helig : eligibleBuy o.price ((price, q) :: rest)
            = (price, q) :: eligibleBuy o.price rest := by
          unfold eligibleBuy
          rw [List.filter_cons]
          rcases hop : o.price with _ | bp
          · simp
          · rw [hop] at hstop
            simp only [gt_iff_lt, decide_eq_true_eq] at hstop
            simp [not_lt.mp hstop]
        obtain ⟨L1, L2, k, hk, L3⟩ := matchBuyLevel_consume now price o q tid
        have hTp := matchBuyLevel_trades_price now price o q tid
        try dsimp only
        by_cases hdone :
            (matchBuyLevel now price o q tid).order.remaining_quantity ≤ 0
        · rw [if_pos hdone]
          try dsimp only
          have hqflat : flattenBook
              ((if (matchBuyLevel now price o q tid).queue.isEmpty then []
                else [(price, (matchBuyLevel now price o q tid).queue)]) ++ rest)
              = (matchBuyLevel now price o q tid).queue ++ flattenBook rest := by
            by_cases hq : (matchBuyLevel now price o q tid).queue.isEmpty
            · rw [if_pos hq]
              rw [List.isEmpty_iff] at hq
              simp [flattenBook, hq]
            · rw [if_neg hq]
              simp [flattenBook]
          refine ⟨?_, ?_, ?_⟩
          · rw [helig]
            refine L1.trans ?_
            simp only [flattenBook, List.map_cons, List.flatten_cons, List.map_append]
            exact List.prefix_append _ _
          · refine ⟨k, ?_⟩
            rw [hqflat]
            simp only [flattenBook, List.map_cons, List.flatten_cons, List.map_append]
            rw [List.drop_append_of_le_length (by simpa using hk), L3]
          · intro _
            exact pairwise_of_const (fun a b => a ≤ b) (fun x hx => by
              obtain ⟨t, ht, hxt⟩ := List.mem_map.mp hx
              rw [← hxt]
              exact hTp t ht) le_rfl
        · rw [if_neg hdone]
          try dsimp only
          have hrem : 0 < (matchBuyLevel now price o q tid).order.remaining_quantity :=
            not_le.mp hdone
          have hqnil : (matchBuyLevel now price o q tid).queue = [] :=
            matchBuyLevel_rem_pos_queue now price o q tid hrem
          have hfull := L2 hrem
          have hprice : (matchBuyLevel now price o q tid).order.price = o.price :=
            matchBuyLevel_order_price now price o q tid
          obtain ⟨W1, ⟨k2, W2⟩, W3⟩ :=
            ih (matchBuyLevel now price o q tid).order
              (matchBuyLevel now price o q tid).next_trade_id
          refine ⟨?_, ?_, ?_⟩
          · rw [helig]
            simp only [flattenBook, List.map_cons, List.flatten_cons,
              List.map_append]
            rw [hfull]
            refine prefix_append_same _ ?_
            rw [hprice] at W1
            exact W1
          · refine ⟨q.length + k2, ?_⟩
            rw [hqnil]
            simp only [List.isEmpty_nil, if_true, List.nil_append]
            rw [W2]
            simp only [flattenBook, List.map_cons, List.flatten_cons,
              List.map_append]
            rw [← List.length_map q idPrio, List.drop_append]
          · intro hsort
            obtain ⟨hhd, hrest⟩ := List.pairwise_cons.mp hsort
            rw [List.map_append]
            rw [List.pairwise_append]
            refine ⟨?_, W3 hrest, ?_⟩
            · exact pairwise_of_const (fun a b => a ≤ b) (fun x hx => by
                obtain ⟨t, ht, hxt⟩ := List.mem_map.mp hx
                rw [← hxt]
                exact hTp t ht) le_rfl
            · intro a ha b hb
              obtain ⟨ta, hta, hta2⟩ := List.mem_map.mp ha
              obtain ⟨tb, htb, htb2⟩ := List.mem_map.mp hb
              have hbmem := matchBuyLevels_trades_price_mem now
                (matchBuyLevel now price o q tid).order rest
                (matchBuyLevel now price o q tid).next_trade_id tb htb
              obtain ⟨lvl, hlvl, hlvlp⟩ := List.mem_map.mp hbmem
              have : price < lvl.1 := hhd lvl hlvl
              rw [← hta2, ← htb2, hTp ta hta, ← hlvlp]
              exact le_of_lt this


/-- Mirror of `matchBuyLevel_consume` for the sell inner loop: the buyers
of its trades are a prefix of the queue's order ids; an unfilled exit
means the queue was consumed; the surviving queue is a `drop` of the
original under (id, priority). -/
theorem matchSellLevel_consume (now : Nat) (price : Rat) (o : Order)
    (q : List OrderBookEntry) (tid : Nat) :
    ((matchSellLevel now price o q tid).trades.map Trade.buyer_order_id
        <+: q.map (fun e => e.order.id))
    ∧ (0 < (matchSellLevel now price o q tid).order.remaining_quantity →
        (matchSellLevel now price o q tid).trades.map Trade.buyer_order_id
          = q.map (fun e => e.order.id))
    ∧ ∃ k ≤ q.length,
        (matchSellLevel now price o q tid).queue.map idPrio
          = (q.map idPrio).drop k := by
  induction q generalizing o tid with
  | nil =>
      exact ⟨List.nil_prefix, fun _ => rfl, 0, Nat.le_refl 0, rfl⟩
  | cons e rest ih =>
      simp only [matchSellLevel]
      by_cases h0 : o.remaining_quantity ≤ 0
      · rw [if_pos h0]
        exact ⟨List.nil_prefix, fun h => absurd h (not_lt.mpr h0),
          0, Nat.zero_le _, rfl⟩
      · rw [if_neg h0]
        try dsimp only
        by_cases hfull :
            e.order.remaining_quantity - min o.remaining_quantity e.order.remaining_quantity ≤ 0
        · rw [if_pos hfull]
          obtain ⟨ih1, ih2, k, hk, ih3⟩ := ih _ (tid + 1)
          refine ⟨?_, ?_, ?_⟩
          · exact prefix_cons_same e.order.id ih1
          · intro h
            simp only [List.map_cons]
            rw [ih2 h]
          · exact ⟨k + 1, Nat.succ_le_succ hk, ih3⟩
        · rw [if_neg hfull]
          refine ⟨?_, ?_, ?_⟩
          · exact prefix_cons_same e.order.id List.nil_prefix
          · intro h
            exfalso
            have htq : min o.remaining_quantity e.order.remaining_quantity
                = o.remaining_quantity := by
              rcases le_total o.remaining_quantity e.order.remaining_quantity with hle | hle
              · exact min_eq_left hle
              · exact absurd (by simp [min_eq_right hle]) hfull
            try dsimp only at h
            rw [htq] at h
            simp at h
          · exact ⟨0, Nat.zero_le _, rfl⟩

/-- Mirror of `matchBuyLevels_priority` for the sell walk over the
descending bid book: buyers consumed in traversal order (a prefix of the
eligible flattened ids), surviving book a `drop` of the original, and for
a strictly descending book the trade prices are nonincreasing (best =
highest bid first). -/
theorem matchSellLevels_priority (now : Nat) (o : Order) (book : SideBook)
    (tid : Nat) :
    ((matchSellLevels now o book tid).trades.map Trade.buyer_order_id
        <+: (flattenBook (eligibleSell o.price book)).map (fun e => e.order.id))
    ∧ (∃ k, (flattenBook (matchSellLevels now o book tid).book).map idPrio
          = ((flattenBook book).map idPrio).drop k)
    ∧ (book.Pairwise (fun a b => b.1 < a.1) →
        ((matchSellLevels now o book tid).trades.map Trade.price).Pairwise
          (fun a b => b ≤ a)) := by
  induction book generalizing o tid with
  | nil =>
      exact ⟨List.nil_prefix, ⟨0, rfl⟩, fun _ => List.Pairwise.nil⟩
  | cons hd rest ih =>
      rcases hd with ⟨price, q⟩
      simp only [matchSellLevels]
      by_cases hstop : (match o.price with
          | some sell_price => decide (price < sell_price)
          | none => false) = true
      · rw [if_pos hstop]
        exact ⟨List.nil_prefix, ⟨0, rfl⟩, fun _ => List.Pairwise.nil⟩
      · rw [if_neg hstop]
        have helig : eligibleSell o.price ((price, q) :: rest)
            = (price, q) :: eligibleSell o.price rest := by
          unfold eligibleSell
          rw [List.filter_cons]
          rcases hop : o.price with _ | sp
          · simp
          · rw [hop] at hstop
            simp only [decide_eq_true_eq] at hstop
            simp [not_lt.mp hstop]
        obtain ⟨L1, L2, k, hk, L3⟩ := matchSellLevel_consume now price o q tid
        have hTp := matchSellLevel_trades_price now price o q tid
        try dsimp only
        by_cases hdone :
            (matchSellLevel now price o q tid).order.remaining_quantity ≤ 0
        · rw [if_pos hdone]
          try dsimp only
          have hqflat : flattenBook
              ((if (matchSellLevel now price o q tid).queue.isEmpty then []
                else [(price, (matchSellLevel now price o q tid).queue)]) ++ rest)
              = (matchSellLevel now price o q tid).queue ++ flattenBook rest := by
            by_cases hq : (matchSellLevel now price o q tid).queue.isEmpty
            · rw [if_pos hq]
              rw [List.isEmpty_iff] at hq
              simp [flattenBook, hq]
            · rw [if_neg hq]
              simp [flattenBook]
          refine ⟨?_, ?_, ?_⟩
          · rw [helig]
            refine L1.trans ?_
            simp only [flattenBook, List.map_cons, List.flatten_cons, List.map_append]
            exact List.prefix_append _ _
          · refine ⟨k, ?_⟩
            rw [hqflat]
            simp only [flattenBook, List.map_cons, List.flatten_cons, List.map_append]
            rw [List.drop_append_of_le_length (by simpa using hk), L3]
          · intro _
            exact pairwise_of_const (fun a b => b ≤ a) (fun x hx => by
              obtain ⟨t, ht, hxt⟩ := List.mem_map.mp hx
              rw [← hxt]
              exact hTp t ht) le_rfl
        · rw [if_neg hdone]
          try dsimp only
          have hrem : 0 < (matchSellLevel now price o q tid).order.remaining_quantity :=
            not_le.mp hdone
          have hqnil : (matchSellLevel now price o q tid).queue = [] :=
            matchSellLevel_rem_pos_queue now price o q tid hrem
          have hfull := L2 hrem
          have hprice : (matchSellLevel now price o q tid).order.price = o.price :=
            matchSellLevel_order_price now price o q tid
          obtain ⟨W1, ⟨k2, W2⟩, W3⟩ :=
            ih (matchSellLevel now price o q tid).order
              (matchSellLevel now price o q tid).next_trade_id
          refine ⟨?_, ?_, ?_⟩
          · rw [helig]
            simp only [flattenBook, List.map_cons, List.flatten_cons,
              List.map_append]
            rw [hfull]
            refine prefix_append_same _ ?_
            rw [hprice] at W1
            exact W1
          · refine ⟨q.length + k2, ?_⟩
            rw [hqnil]
            simp only [List.isEmpty_nil, if_true, List.nil_append]
            rw [W2]
            simp only [flattenBook, List.map_cons, List.flatten_cons,
              List.map_append]
            rw [← List.length_map q idPrio, List.drop_append]
          · intro hsort
            obtain ⟨hhd, hrest⟩ := List.pairwise_cons.mp hsort
            rw [List.map_append]
            rw [List.pairwise_append]
            refine ⟨?_, W3 hrest, ?_⟩
            · exact pairwise_of_const (fun a b => b ≤ a) (fun x hx => by
                obtain ⟨t, ht, hxt⟩ := List.mem_map.mp hx
                rw [← hxt]
                exact hTp t ht) le_rfl
            · intro a ha b hb
              obtain ⟨ta, hta, hta2⟩ := List.mem_map.mp ha
              obtain ⟨tb, htb, htb2⟩ := List.mem_map.mp hb
              have hbmem := matchSellLevels_trades_price_mem now
                (matchSellLevel now price o q tid).order rest
                (matchSellLevel now price o q tid).next_trade_id tb htb
              obtain ⟨lvl, hlvl, hlvlp⟩ := List.mem_map.mp hbmem
              have : lvl.1 < price := hhd lvl hlvl
              rw [← hta2, ← htb2, hTp ta hta, ← hlvlp]
              exact le_of_lt this

/-- Sell 50 @ 98.50 (order 1, first in, priority 1 in `bookP`). -/
def sellA : Order :=
  { baseOrder with
    id := 1
    side := OrderSide.Sell
    quantity := 50
    price := some (197 / 2)
    remaining_quantity := 50
    account_id := 10 }

/-- Sell 50 @ 98.50 (order 2, second in, priority 2 in `bookP`). -/
def sellB : Order :=
  { sellA with id := 2, account_id := 11 }

/-- The one-level ask book of spec scenario 2: S1 then S2 at 98.50. -/
def bookP : SideBook := [(197 / 2, [⟨sellA, 1⟩, ⟨sellB, 2⟩])]

/-- Buy 75 @ 98.50 (order 3), the scenario-2 aggressor. -/
def buyP : Order :=
  { baseOrder with
    id := 3
    quantity := 75
    price := some (197 / 2)
    remaining_quantity := 75
    account_id := 20 }

/-- C1: the matching walks preserve price-time priority. On either side,
the resting orders consumed (the counterparties of the emitted trades, in
execution order) are a *prefix* of the eligible book flattened in
traversal order — levels in book order, FIFO by ascending priority inside
a level — so no resting order is filled before another resting order of
equal-or-better price and strictly lower priority; the surviving book is
exactly a tail (`drop k`) of the original book's (id, priority) sequence,
so a partially filled resting order is pushed back at the head of its
level with its priority intact; and on a price-sorted book the trades'
prices are best-first (nondecreasing asks for a buy, nonincreasing bids
for a sell). -/
theorem price_time_priority_preserved (now tid : Nat) (o : Order)
    (book : SideBook) :
    ((matchBuyLevels now o book tid).trades.map Trade.seller_order_id
        <+: (flattenBook (eligibleBuy o.price book)).map (fun e => e.order.id))
    ∧ (∃ k, (flattenBook (matchBuyLevels now o book tid).book).map idPrio
          = ((flattenBook book).map idPrio).drop k)
    ∧ (book.Pairwise (fun a b => a.1 < b.1) →
        ((matchBuyLevels now o book tid).trades.map Trade.price).Pairwise
          (fun a b => a ≤ b))
    ∧ ((matchSellLevels now o book tid).trades.map Trade.buyer_order_id
        <+: (flattenBook (eligibleSell o.price book)).map (fun e => e.order.id))
    ∧ (∃ k, (flattenBook (matchSellLevels now o book tid).book).map idPrio
          = ((flattenBook book).map idPrio).drop k)
    ∧ (book.Pairwise (fun a b => b.1 < a.1) →
        ((matchSellLevels now o book tid).trades.map Trade.price).Pairwise
          (fun a b => b ≤ a)) := by
  obtain ⟨B1, B2, B3⟩ := matchBuyLevels_priority now o book tid
  obtain ⟨S1, S2, S3⟩ := matchSellLevels_priority now o book tid
  exact ⟨B1, B2, B3, S1, S2, S3⟩

/-- C1 witness: spec scenario 2 — Sell 50 (S1) then Sell 50 (S2) at
98.50; Buy 75 @ 98.50 fills S1 fully, then S2 partially: sellers are
consumed in priority order [1, 2], and the surviving book is exactly S2's
entry with its original priority 2 at the head of the 98.50 level. -/
theorem price_time_priority_preserved_witness :
    ((matchBuyLevels 3 buyP bookP 0).trades.map Trade.seller_order_id
        <+: (flattenBook (eligibleBuy buyP.price bookP)).map (fun e => e.order.id))
    ∧ ((matchBuyLevels 3 buyP bookP 0).trades.map Trade.price).Pairwise
        (fun a b => a ≤ b)
    ∧ (matchBuyLevels 3 buyP bookP 0).trades.map Trade.seller_order_id = [1, 2]
    ∧ (matchBuyLevels 3 buyP bookP 0).trades.map Trade.quantity = [50, 25]
    ∧ (flattenBook (matchBuyLevels 3 buyP bookP 0).book).map idPrio = [(2, 2)] :=
  ⟨(price_time_priority_preserved 3 0 buyP bookP).1,
    (price_time_priority_preserved 3 0 buyP bookP).2.2.1
      (by with_unfolding_all decide),
    by with_unfolding_all decide,
    by with_unfolding_all decide,
    by with_unfolding_all decide⟩

/-! ## Resting-order invariant (C9) -/

/-- The spec's resting-order invariant, on an order:
`filled + remaining = quantity`, `remaining > 0`,
`status ∈ {Pending, PartiallyFilled}`. -/
def OrderInv (o : Order) : Prop :=
  o.filled_quantity + o.remaining_quantity = o.quantity
  ∧ 0 < o.remaining_quantity
  ∧ (o.status = OrderStatus.Pending ∨ o.status = OrderStatus.PartiallyFilled)

instance (o : Order) : Decidable (OrderInv o) := by
  unfold OrderInv
  infer_instance

/-- The invariant over every entry of a symbol's side book. -/
def SideInv (b : SideBook) : Prop :=
  ∀ e ∈ flattenBook b, OrderInv e.order

/-- The invariant over every side book of one side's `BTreeMap`. -/
def BooksInv (bks : Books) : Prop :=
  ∀ sb ∈ bks, SideInv sb.2

/-- The invariant over both sides of the engine's book. -/
def EngineInv (eng : TradingEngine) : Prop :=
  BooksInv eng.matching_engine.buy_orders ∧ BooksInv eng.matching_engine.sell_orders

/-- The fields of the incoming buy the inner loop may change are exactly
the execution fields, and it changes them conservatively: side and
quantity are untouched, `filled + remaining` is conserved, and the status
is either untouched (no fill) or the `Filled`/`PartiallyFilled` dictated
by the final remainder. -/
theorem matchBuyLevel_order_inv (now : Nat) (price : Rat) (o : Order)
    (q : List OrderBookEntry) (tid : Nat) :
    ((matchBuyLevel now price o q tid).order.side = o.side)
    ∧ ((matchBuyLevel now price o q tid).order.quantity = o.quantity)
    ∧ ((matchBuyLevel now price o q tid).order.filled_quantity
        + (matchBuyLevel now price o q tid).order.remaining_quantity
        = o.filled_quantity + o.remaining_quantity)
    ∧ ((matchBuyLevel now price o q tid).order = o
        ∨ (matchBuyLevel now price o q tid).order.status
            = (if (matchBuyLevel now price o q tid).order.remaining_quantity ≤ 0
               then OrderStatus.Filled else OrderStatus.PartiallyFilled)) := by
  induction q generalizing o tid with
  | nil => exact ⟨rfl, rfl, rfl, Or.inl rfl⟩
  | cons e rest ih =>
      simp only [matchBuyLevel]
      by_cases h0 : o.remaining_quantity ≤ 0
      · rw [if_pos h0]
        exact ⟨rfl, rfl, rfl, Or.inl rfl⟩
      · rw [if_neg h0]
        try dsimp only
        by_cases hfull :
            e.order.remaining_quantity - min o.remaining_quantity e.order.remaining_quantity ≤ 0
        · rw [if_pos hfull]
          obtain ⟨ih1, ih2, ih3, ih4⟩ := ih _ (tid + 1)
          refine ⟨ih1, ih2, ?_, ?_⟩
          · rw [ih3]
            try dsimp only
            ring
          · rcases ih4 with ih4 | ih4
            · rw [ih4]
              try dsimp only
              exact Or.inr rfl
            · exact Or.inr ih4
        · rw [if_neg hfull]
          refine ⟨rfl, rfl, by try dsimp only; ring, Or.inr rfl⟩

/-- Mirror of `matchBuyLevel_order_inv` for the sell inner loop. -/
theorem matchSellLevel_order_inv (now : Nat) (price : Rat) (o : Order)
    (q : List OrderBookEntry) (tid : Nat) :
    ((matchSellLevel now price o q tid).order.side = o.side)
    ∧ ((matchSellLevel now price o q tid).order.quantity = o.quantity)
    ∧ ((matchSellLevel now price o q tid).order.filled_quantity
        + (matchSellLevel now price o q tid).order.remaining_quantity
        = o.filled_quantity + o.remaining_quantity)
    ∧ ((matchSellLevel now price o q tid).order = o
        ∨ (matchSellLevel now price o q tid).order.status
            = (if (matchSellLevel now price o q tid).order.remaining_quantity ≤ 0
               then OrderStatus.Filled else OrderStatus.PartiallyFilled)) := by
  induction q generalizing o tid with
  | nil => exact ⟨rfl, rfl, rfl, Or.inl rfl⟩
  | cons e rest ih =>
      simp only [matchSellLevel]
      by_cases h0 : o.remaining_quantity ≤ 0
      · rw [if_pos h0]
        exact ⟨rfl, rfl, rfl, Or.inl rfl⟩
      · rw [if_neg h0]
        try dsimp only
        by_cases hfull :
            e.order.remaining_quantity - min o.remaining_quantity e.order.remaining_quantity ≤ 0
        · rw [if_pos hfull]
          obtain ⟨ih1, ih2, ih3, ih4⟩ := ih _ (tid + 1)
          refine ⟨ih1, ih2, ?_, ?_⟩
          · rw [ih3]
            try dsimp only
            ring
          · rcases ih4 with ih4 | ih4
            · rw [ih4]
              try dsimp only
              exact Or.inr rfl
            · exact Or.inr ih4
        · rw [if_neg hfull]
          refine ⟨rfl, rfl, by try dsimp only; ring, Or.inr rfl⟩

/-- The same field conservation holds across the whole buy walk. -/
theorem matchBuyLevels_order_inv (now : Nat) (o : Order) (book : SideBook)
    (tid : Nat) :
    ((matchBuyLevels now o book tid).order.side = o.side)
    ∧ ((matchBuyLevels now o book tid).order.quantity = o.quantity)
    ∧ ((matchBuyLevels now o book tid).order.filled_quantity
        + (matchBuyLevels now o book tid).order.remaining_quantity
        = o.filled_quantity + o.remaining_quantity)
    ∧ ((matchBuyLevels now o book tid).order = o
        ∨ (matchBuyLevels now o book tid).order.status
            = (if (matchBuyLevels now o book tid).order.remaining_quantity ≤ 0
               then OrderStatus.Filled else OrderStatus.PartiallyFilled)) := by
  induction book generalizing o tid with
  | nil => exact ⟨rfl, rfl, rfl, Or.inl rfl⟩
  | cons hd rest ih =>
      rcases hd with ⟨price, q⟩
      simp only [matchBuyLevels]
      by_cases hstop : (match o.price with
          | some buy_price => decide (price > buy_price)
          | none => false) = true
      · rw [if_pos hstop]
        exact ⟨rfl, rfl, rfl, Or.inl rfl⟩
      · rw [if_neg hstop]
        obtain ⟨L1, L2, L3, L4⟩ := matchBuyLevel_order_inv now price o q tid
        try dsimp only
        by_cases hdone :
            (matchBuyLevel now price o q tid).order.remaining_quantity ≤ 0
        · rw [if_pos hdone]
          exact ⟨L1, L2, L3, L4⟩
        · rw [if_neg hdone]
          obtain ⟨W1, W2, W3, W4⟩ :=
            ih (matchBuyLevel now price o q tid).order
              (matchBuyLevel now price o q tid).next_trade_id
          refine ⟨W1.trans L1, W2.trans L2, by rw [W3]; exact L3, ?_⟩
          rcases W4 with W4 | W4
          · rw [W4]
            exact L4
          · exact Or.inr W4

/-- Mirror of `matchBuyLevels_order_inv` for the sell walk. -/
theorem matchSellLevels_order_inv (now : Nat) (o : Order) (book : SideBook)
    (tid : Nat) :
    ((matchSellLevels now o book tid).order.side = o.side)
    ∧ ((matchSellLevels now o book tid).order.quantity = o.quantity)
    ∧ ((matchSellLevels now o book tid).order.filled_quantity
        + (matchSellLevels now o book tid).order.remaining_quantity
        = o.filled_quantity + o.remaining_quantity)
    ∧ ((matchSellLevels now o book tid).order = o
        ∨ (matchSellLevels now o book tid).order.status
            = (if (matchSellLevels now o book tid).order.remaining_quantity ≤ 0
               then OrderStatus.Filled else OrderStatus.PartiallyFilled)) := by
  induction book generalizing o tid with
  | nil => exact ⟨rfl, rfl, rfl, Or.inl rfl⟩
  | cons hd rest ih =>
      rcases hd with ⟨price, q⟩
      simp only [matchSellLevels]
      by_cases hstop : (match o.price with
          | some sell_price => decide (price < sell_price)
          | none => false) = true
      · rw [if_pos hstop]
        exact ⟨rfl, rfl, rfl, Or.inl rfl⟩
      · rw [if_neg hstop]
        obtain ⟨L1, L2, L3, L4⟩ := matchSellLevel_order_inv now price o q tid
        try dsimp only
        by_cases hdone :
            (matchSellLevel now price o q tid).order.remaining_quantity ≤ 0
        · rw [if_pos hdone]
          exact ⟨L1, L2, L3, L4⟩
        · rw [if_neg hdone]
          obtain ⟨W1, W2, W3, W4⟩ :=
            ih (matchSellLevel now price o q tid).order
              (matchSellLevel now price o q tid).next_trade_id
          refine ⟨W1.trans L1, W2.trans L2, by rw [W3]; exact L3, ?_⟩
          rcases W4 with W4 | W4
          · rw [W4]
            exact L4
          · exact Or.inr W4

theorem flattenBook_nil : flattenBook [] = [] := rfl

theorem flattenBook_cons (p : Rat) (q : List OrderBookEntry) (rest : SideBook) :
    flattenBook ((p, q) :: rest) = q ++ flattenBook rest := by
  simp [flattenBook]

theorem flattenBook_append (b₁ b₂ : SideBook) :
    flattenBook (b₁ ++ b₂) = flattenBook b₁ ++ flattenBook b₂ := by
  simp [flattenBook]

/-- The inner buy loop leaves only invariant-satisfying entries in the
queue: untouched entries keep their invariant, and a partially filled head
is pushed back with conserved quantities, positive remainder and status
`PartiallyFilled`. -/
theorem matchBuyLevel_queue_inv (now : Nat) (price : Rat) (o : Order)
    (q : List OrderBookEntry) (tid : Nat)
    (h : ∀ e ∈ q, OrderInv e.order) :
    ∀ e ∈ (matchBuyLevel now price o q tid).queue, OrderInv e.order := by
  induction q generalizing o tid with
  | nil => intro e he; simp [matchBuyLevel] at he
  | cons e rest ih =>
      intro x hx
      simp only [matchBuyLevel] at hx
      by_cases h0 : o.remaining_quantity ≤ 0
      · rw [if_pos h0] at hx
        exact h x hx
      · rw [if_neg h0] at hx
        try dsimp only at hx
        by_cases hfull :
            e.order.remaining_quantity - min o.remaining_quantity e.order.remaining_quantity ≤ 0
        · rw [if_pos hfull] at hx
          exact ih _ (tid + 1) (fun y hy => h y (List.mem_cons_of_mem e hy)) x hx
        · rw [if_neg hfull] at hx
          rcases List.mem_cons.mp hx with hx | hx
          · rw [hx]
            obtain ⟨hsum, _, _⟩ := h e (List.mem_cons_self e rest)
            refine ⟨?_, ?_, Or.inr ?_⟩
            · try dsimp only
              rw [← hsum]
              ring
            · try dsimp only
              exact sub_pos.mpr (lt_of_not_le (fun hc =>
                hfull (sub_nonpos.mpr hc)))
            · try dsimp only
              rw [if_neg hfull]
          · exact h x (List.mem_cons_of_mem e hx)

/-- Mirror of `matchBuyLevel_queue_inv` for the sell inner loop. -/
theorem matchSellLevel_queue_inv (now : Nat) (price : Rat) (o : Order)
    (q : List OrderBookEntry) (tid : Nat)
    (h : ∀ e ∈ q, OrderInv e.order) :
    ∀ e ∈ (matchSellLevel now price o q tid).queue, OrderInv e.order := by
  induction q generalizing o tid with
  | nil => intro e he; simp [matchSellLevel] at he
  | cons e rest ih =>
      intro x hx
      simp only [matchSellLevel] at hx
      by_cases h0 : o.remaining_quantity ≤ 0
      · rw [if_pos h0] at hx
        exact h x hx
      · rw [if_neg h0] at hx
        try dsimp only at hx
        by_cases hfull :
            e.order.remaining_quantity - min o.remaining_quantity e.order.remaining_quantity ≤ 0
        · rw [if_pos hfull] at hx
          exact ih _ (tid + 1) (fun y hy => h y (List.mem_cons_of_mem e hy)) x hx
        · rw [if_neg hfull] at hx
          rcases List.mem_cons.mp hx with hx | hx
          · rw [hx]
            obtain ⟨hsum, _, _⟩ := h e (List.mem_cons_self e rest)
            refine ⟨?_, ?_, Or.inr ?_⟩
            · try dsimp only
              rw [← hsum]
              ring
            · try dsimp only
              exact sub_pos.mpr (lt_of_not_le (fun hc =>
                hfull (sub_nonpos.mpr hc)))
            · try dsimp only
              rw [if_neg hfull]
          · exact h x (List.mem_cons_of_mem e hx)

/-- Flattening through the pruned-level `keep ++ tail` shape of the walk. -/
theorem flattenBook_keep_append (q' : List OrderBookEntry) (price : Rat)
    (tail : SideBook) :
    flattenBook ((if q'.isEmpty then [] else [(price, q')]) ++ tail)
      = q' ++ flattenBook tail := by
  by_cases hq : q'.isEmpty
  · rw [if_pos hq]
    rw [List.isEmpty_iff] at hq
    simp [flattenBook, hq]
  · rw [if_neg hq]
    simp [flattenBook]

/-- The buy walk preserves the invariant for every surviving book entry. -/
theorem matchBuyLevels_book_inv (now : Nat) (o : Order) (book : SideBook)
    (tid : Nat) (h : ∀ e ∈ flattenBook book, OrderInv e.order) :
    ∀ e ∈ flattenBook (matchBuyLevels now o book tid).book,
      OrderInv e.order := by
  induction book generalizing o tid with
  | nil => intro e he; simp [matchBuyLevels, flattenBook] at he
  | cons hd rest ih =>
      intro x hx
      rcases hd with ⟨price, q⟩
      rw [flattenBook_cons] at h
      simp only [matchBuyLevels] at hx
      by_cases hstop : (match o.price with
          | some buy_price => decide (price > buy_price)
          | none => false) = true
      · rw [if_pos hstop] at hx
        rw [flattenBook_cons] at hx
        exact h x hx
      · rw [if_neg hstop] at hx
        try dsimp only at hx
        have hqinv : ∀ e ∈ (matchBuyLevel now price o q tid).queue, OrderInv e.order :=
          matchBuyLevel_queue_inv now price o q tid
            (fun e he => h e (List.mem_append_left _ he))
        by_cases hdone :
            (matchBuyLevel now price o q tid).order.remaining_quantity ≤ 0
        · rw [if_pos hdone] at hx
          try dsimp only at hx
          rw [flattenBook_keep_append] at hx
          rcases List.mem_append.mp hx with hx | hx
          · exact hqinv x hx
          · exact h x (List.mem_append_right _ hx)
        · rw [if_neg hdone] at hx
          try dsimp only at hx
          rw [flattenBook_keep_append] at hx
          rcases List.mem_append.mp hx with hx | hx
          · exact hqinv x hx
          · exact ih _ _ (fun e he => h e (List.mem_append_right _ he)) x hx

/-- Mirror of `matchBuyLevels_book_inv` for the sell walk. -/
theorem matchSellLevels_book_inv (now : Nat) (o : Order) (book : SideBook)
    (tid : Nat) (h : ∀ e ∈ flattenBook book, OrderInv e.order) :
    ∀ e ∈ flattenBook (matchSellLevels now o book tid).book,
      OrderInv e.order := by
  induction book generalizing o tid with
  | nil => intro e he; simp [matchSellLevels, flattenBook] at he
  | cons hd rest ih =>
      intro x hx
      rcases hd with ⟨price, q⟩
      rw [flattenBook_cons] at h
      simp only [matchSellLevels] at hx
      by_cases hstop : (match o.price with
          | some sell_price => decide (price < sell_price)
          | none => false) = true
      · rw [if_pos hstop] at hx
        rw [flattenBook_cons] at hx
        exact h x hx
      · rw [if_neg hstop] at hx
        try dsimp only at hx
        have hqinv : ∀ e ∈ (matchSellLevel now price o q tid).queue, OrderInv e.order :=
          matchSellLevel_queue_inv now price o q tid
            (fun e he => h e (List.mem_append_left _ he))
        by_cases hdone :
            (matchSellLevel now price o q tid).order.remaining_quantity ≤ 0
        · rw [if_pos hdone] at hx
          try dsimp only at hx
          rw [flattenBook_keep_append] at hx
          rcases List.mem_append.mp hx with hx | hx
          · exact hqinv x hx
          · exact h x (List.mem_append_right _ hx)
        · rw [if_neg hdone] at hx
          try dsimp only at hx
          rw [flattenBook_keep_append] at hx
          rcases List.mem_append.mp hx with hx | hx
          · exact hqinv x hx
          · exact ih _ _ (fun e he => h e (List.mem_append_right _ he)) x hx

theorem SideInv_nil : SideInv [] := by
  intro e he
  simp [flattenBook] at he

/-- Reversing a side book (the descending walk of the bid side) does not
change its entry set. -/
theorem mem_flattenBook_reverse (e : OrderBookEntry) (b : SideBook) :
    e ∈ flattenBook b.reverse ↔ e ∈ flattenBook b := by
  simp only [flattenBook, List.mem_flatten, List.mem_map, List.mem_reverse]

theorem SideInv_reverse (b : SideBook) (h : SideInv b) : SideInv b.reverse := by
  intro e he
  exact h e ((mem_flattenBook_reverse e b).mp he)

/-- `cancel`'s per-level `retain` keeps only entries of the original
book. -/
theorem mem_flattenBook_removeFromBook (b : SideBook) (price : Rat)
    (order_id : Nat) (e : OrderBookEntry)
    (he : e ∈ flattenBook (removeFromBook b price order_id)) :
    e ∈ flattenBook b := by
  induction b with
  | nil => simp [removeFromBook, flattenBook] at he
  | cons lvl rest ih =>
      have hstep : removeFromBook (lvl :: rest) price order_id
          = (if lvl.1 = price then
              (if (lvl.2.filter (fun x => ¬ x.order.id = order_id)).isEmpty then
                removeFromBook rest price order_id
              else (lvl.1, lvl.2.filter (fun x => ¬ x.order.id = order_id))
                :: removeFromBook rest price order_id)
            else lvl :: removeFromBook rest price order_id) := by
        simp only [removeFromBook, List.foldr_cons]
      rw [hstep] at he
      by_cases hp : lvl.1 = price
      · rw [if_pos hp] at he
        by_cases hemp : (lvl.2.filter (fun x => ¬ x.order.id = order_id)).isEmpty
        · rw [if_pos hemp] at he
          rw [flattenBook_cons]
          exact List.mem_append_right _ (ih he)
        · rw [if_neg hemp] at he
          rw [flattenBook_cons] at he ⊢
          rcases List.mem_append.mp he with he | he
          · exact List.mem_append_left _ (List.mem_of_mem_filter he)
          · exact List.mem_append_right _ (ih he)
      · rw [if_neg hp] at he
        rw [flattenBook_cons] at he ⊢
        rcases List.mem_append.mp he with he | he
        · exact List.mem_append_left _ he
        · exact List.mem_append_right _ (ih he)

theorem SideInv_removeFromBook (b : SideBook) (price : Rat) (order_id : Nat)
    (h : SideInv b) : SideInv (removeFromBook b price order_id) := by
  intro e he
  exact h e (mem_flattenBook_removeFromBook b price order_id e he)

/-- Insertion adds exactly the new entry to the book's entry set. -/
theorem mem_flattenBook_insertLevel (b : SideBook) (price : Rat)
    (x : OrderBookEntry) (e : OrderBookEntry)
    (he : e ∈ flattenBook (insertLevel b price x)) :
    e ∈ flattenBook b ∨ e = x := by
  induction b with
  | nil =>
      simp only [insertLevel, flattenBook_cons, flattenBook_nil,
        List.append_nil, List.mem_singleton] at he
      exact Or.inr he
  | cons lvl rest ih =>
      rcases lvl with ⟨p, q⟩
      simp only [insertLevel] at he
      by_cases h1 : price < p
      · rw [if_pos h1] at he
        rw [flattenBook_cons, flattenBook_cons] at he
        rcases List.mem_append.mp he with he | he
        · exact Or.inr (List.mem_singleton.mp he)
        · exact Or.inl he
      · rw [if_neg h1] at he
        by_cases h2 : price = p
        · rw [if_pos h2] at he
          rw [flattenBook_cons] at he
          rw [flattenBook_cons]
          rcases List.mem_append.mp he with he | he
          · rcases List.mem_append.mp he with he | he
            · exact Or.inl (List.mem_append_left _ he)
            · exact Or.inr (List.mem_singleton.mp he)
          · exact Or.inl (List.mem_append_right _ he)
        · rw [if_neg h2] at he
          rw [flattenBook_cons] at he
          rw [flattenBook_cons]
          rcases List.mem_append.mp he with he | he
          · exact Or.inl (List.mem_append_left _ he)
          · rcases ih he with h | h
            · exact Or.inl (List.mem_append_right _ h)
            · exact Or.inr h

theorem SideInv_insertLevel (b : SideBook) (price : Rat) (x : OrderBookEntry)
    (h : SideInv b) (hx : OrderInv x.order) :
    SideInv (insertLevel b price x) := by
  intro e he
  rcases mem_flattenBook_insertLevel b price x e he with hm | hm
  · exact h e hm
  · rw [hm]
    exact hx

theorem BooksInv_updateA (bks : Books) (sym : String) (f : SideBook → SideBook)
    (h : BooksInv bks) (hf : ∀ sb, SideInv sb → SideInv (f sb)) :
    BooksInv (updateA bks sym f) := by
  intro sb hsb
  obtain ⟨a, ha, hax⟩ := List.mem_map.mp hsb
  by_cases hk : a.1 = sym
  · rw [if_pos hk] at hax
    rw [← hax]
    exact hf a.2 (h a ha)
  · rw [if_neg hk] at hax
    rw [← hax]
    exact h a ha

theorem BooksInv_updateSymbol (bks : Books) (sym : String)
    (f : SideBook → SideBook) (h : BooksInv bks)
    (hf : ∀ sb, SideInv sb → SideInv (f sb)) :
    BooksInv (updateSymbol bks sym f) := by
  unfold updateSymbol
  by_cases hp : (bks.find? (fun e => e.1 = sym)).isSome
  · rw [if_pos hp]
    exact BooksInv_updateA bks sym f h hf
  · rw [if_neg hp]
    intro sb hsb
    rcases List.mem_append.mp hsb with hm | hm
    · exact h sb hm
    · rw [List.mem_singleton.mp hm]
      exact hf [] SideInv_nil

theorem BooksInv_lookupA (bks : Books) (sym : String) (sb : SideBook)
    (h : BooksInv bks) (hl : lookupA bks sym = some sb) : SideInv sb := by
  unfold lookupA at hl
  rcases hfind : bks.find? (fun e => e.1 = sym) with _ | x
  · rw [hfind] at hl
    cases hl
  · rw [hfind] at hl
    have hx2 : x.2 = sb := by simpa using hl
    rw [← hx2]
    exact h x (List.mem_of_find?_eq_some hfind)

theorem match_buy_order_books_inv (me : MatchingEngine) (o : Order) (now : Nat)
    (hb : BooksInv me.buy_orders) (hs : BooksInv me.sell_orders) :
    BooksInv (me.match_buy_order o now).1.buy_orders
    ∧ BooksInv (me.match_buy_order o now).1.sell_orders := by
  unfold MatchingEngine.match_buy_order
  cases hl : lookupA me.sell_orders o.symbol with
  | none => exact ⟨hb, hs⟩
  | some symbol_orders =>
      try dsimp only
      refine ⟨hb, ?_⟩
      have hsi : SideInv symbol_orders := BooksInv_lookupA _ _ _ hs hl
      exact BooksInv_updateA me.sell_orders o.symbol _ hs
        (fun _ _ => matchBuyLevels_book_inv now o symbol_orders me.next_trade_id hsi)

theorem match_sell_order_books_inv (me : MatchingEngine) (o : Order) (now : Nat)
    (hb : BooksInv me.buy_orders) (hs : BooksInv me.sell_orders) :
    BooksInv (me.match_sell_order o now).1.buy_orders
    ∧ BooksInv (me.match_sell_order o now).1.sell_orders := by
  unfold MatchingEngine.match_sell_order
  cases hl : lookupA me.buy_orders o.symbol with
  | none => exact ⟨hb, hs⟩
  | some symbol_orders =>
      try dsimp only
      refine ⟨?_, hs⟩
      have hsi : SideInv symbol_orders := BooksInv_lookupA _ _ _ hb hl
      refine BooksInv_updateA me.buy_orders o.symbol _ hb (fun _ _ => ?_)
      exact SideInv_reverse _
        (matchSellLevels_book_inv now o symbol_orders.reverse me.next_trade_id
          (SideInv_reverse _ hsi))

theorem match_buy_order_order_inv (me : MatchingEngine) (o : Order) (now : Nat) :
    ((me.match_buy_order o now).2.1.side = o.side)
    ∧ ((me.match_buy_order o now).2.1.quantity = o.quantity)
    ∧ ((me.match_buy_order o now).2.1.filled_quantity
        + (me.match_buy_order o now).2.1.remaining_quantity
        = o.filled_quantity + o.remaining_quantity)
    ∧ ((me.match_buy_order o now).2.1 = o
        ∨ (me.match_buy_order o now).2.1.status
            = (if (me.match_buy_order o now).2.1.remaining_quantity ≤ 0
               then OrderStatus.Filled else OrderStatus.PartiallyFilled)) := by
  unfold MatchingEngine.match_buy_order
  cases hl : lookupA me.sell_orders o.symbol with
  | none => exact ⟨rfl, rfl, rfl, Or.inl rfl⟩
  | some symbol_orders =>
      try dsimp only
      exact matchBuyLevels_order_inv now o symbol_orders me.next_trade_id

theorem match_sell_order_order_inv (me : MatchingEngine) (o : Order) (now : Nat) :
    ((me.match_sell_order o now).2.1.side = o.side)
    ∧ ((me.match_sell_order o now).2.1.quantity = o.quantity)
    ∧ ((me.match_sell_order o now).2.1.filled_quantity
        + (me.match_sell_order o now).2.1.remaining_quantity
        = o.filled_quantity + o.remaining_quantity)
    ∧ ((me.match_sell_order o now).2.1 = o
        ∨ (me.match_sell_order o now).2.1.status
            = (if (me.match_sell_order o now).2.1.remaining_quantity ≤ 0
               then OrderStatus.Filled else OrderStatus.PartiallyFilled)) := by
  unfold MatchingEngine.match_sell_order
  cases hl : lookupA me.buy_orders o.symbol with
  | none => exact ⟨rfl, rfl, rfl, Or.inl rfl⟩
  | some symbol_orders =>
      try dsimp only
      exact matchSellLevels_order_inv now o symbol_orders.reverse me.next_trade_id

theorem match_order_books_inv (me : MatchingEngine) (o : Order) (now : Nat)
    (hb : BooksInv me.buy_orders) (hs : BooksInv me.sell_orders) :
    BooksInv (me.match_order o now).1.buy_orders
    ∧ BooksInv (me.match_order o now).1.sell_orders := by
  unfold MatchingEngine.match_order
  cases o.side
  · exact match_buy_order_books_inv me o now hb hs
  · exact match_sell_order_books_inv me o now hb hs

theorem match_order_order_inv (me : MatchingEngine) (o : Order) (now : Nat) :
    ((me.match_order o now).2.1.quantity = o.quantity)
    ∧ ((me.match_order o now).2.1.filled_quantity
        + (me.match_order o now).2.1.remaining_quantity
        = o.filled_quantity + o.remaining_quantity)
    ∧ ((me.match_order o now).2.1 = o
        ∨ (me.match_order o now).2.1.status
            = (if (me.match_order o now).2.1.remaining_quantity ≤ 0
               then OrderStatus.Filled else OrderStatus.PartiallyFilled)) := by
  unfold MatchingEngine.match_order
  cases o.side
  · obtain ⟨_, h2, h3, h4⟩ := match_buy_order_order_inv me o now
    exact ⟨h2, h3, h4⟩
  · obtain ⟨_, h2, h3, h4⟩ := match_sell_order_order_inv me o now
    exact ⟨h2, h3, h4⟩

theorem add_to_order_book_books_inv (me : MatchingEngine) (o : Order)
    (hb : BooksInv me.buy_orders) (hs : BooksInv me.sell_orders)
    (ho : OrderInv o) :
    BooksInv (me.add_to_order_book o).1.buy_orders
    ∧ BooksInv (me.add_to_order_book o).1.sell_orders := by
  unfold MatchingEngine.add_to_order_book
  cases hp : o.price with
  | none => exact ⟨hb, hs⟩
  | some price =>
      cases hside : o.side
      · refine ⟨?_, hs⟩
        exact BooksInv_updateSymbol me.buy_orders o.symbol _ hb
          (fun sb hsb => SideInv_insertLevel sb price _ hsb ho)
      · refine ⟨hb, ?_⟩
        exact BooksInv_updateSymbol me.sell_orders o.symbol _ hs
          (fun sb hsb => SideInv_insertLevel sb price _ hsb ho)

theorem process_order_books_inv (me : MatchingEngine) (o : Order) (now : Nat)
    (hb : BooksInv me.buy_orders) (hs : BooksInv me.sell_orders)
    (hsum : o.filled_quantity + o.remaining_quantity = o.quantity)
    (hst : o.status = OrderStatus.Pending ∨ o.status = OrderStatus.PartiallyFilled) :
    BooksInv (me.process_order o now).1.buy_orders
    ∧ BooksInv (me.process_order o now).1.sell_orders := by
  unfold MatchingEngine.process_order
  try dsimp only
  have hBooks := match_order_books_inv me o now hb hs
  have hOrd := match_order_order_inv me o now
  rcases hmo : me.match_order o now with ⟨me2, o2, tr2⟩
  rw [hmo] at hBooks hOrd
  try rw [hmo]
  try dsimp only at hBooks hOrd ⊢
  by_cases hrem : o2.remaining_quantity > 0
  · rw [if_pos hrem]
    have ho2 : OrderInv o2 := by
      obtain ⟨hq, hfr, hstat⟩ := hOrd
      refine ⟨by rw [hfr, hsum, hq], hrem, ?_⟩
      rcases hstat with hstat | hstat
      · rw [hstat]
        exact hst
      · rw [hstat, if_neg (not_le.mpr hrem)]
        exact Or.inr rfl
    have hAdd := add_to_order_book_books_inv me2 o2 hBooks.1 hBooks.2 ho2
    rcases hadd : me2.add_to_order_book o2 with ⟨me3, res⟩
    rw [hadd] at hAdd
    cases res
    · exact hAdd
    · exact hAdd
  · rw [if_neg hrem]
    exact hBooks

theorem mcancel_books_inv (me : MatchingEngine) (order_id : Nat)
    (hb : BooksInv me.buy_orders) (hs : BooksInv me.sell_orders) :
    BooksInv (me.cancel_order order_id).1.buy_orders
    ∧ BooksInv (me.cancel_order order_id).1.sell_orders := by
  unfold MatchingEngine.cancel_order
  cases hl : lookupA me.order_index order_id with
  | none => exact ⟨hb, hs⟩
  | some v =>
      rcases v with ⟨symbol, price, side⟩
      cases side
      · refine ⟨?_, hs⟩
        exact BooksInv_updateA _ symbol _ hb
          (fun sb hsb => SideInv_removeFromBook sb price order_id hsb)
      · refine ⟨hb, ?_⟩
        exact BooksInv_updateA _ symbol _ hs
          (fun sb hsb => SideInv_removeFromBook sb price order_id hsb)

theorem submit_books_inv (eng : TradingEngine) (o : Order) (now : Nat)
    (hf : o.filled_quantity = 0) (hst : o.status = OrderStatus.Pending)
    (h : EngineInv eng) : EngineInv (eng.submit_order o now).1 := by
  unfold TradingEngine.submit_order
  cases hv : validate_order o with
  | error e => exact h
  | ok u =>
  cases hr : check_order eng.risk_limits o with
  | error e => exact h
  | ok u2 =>
      try dsimp only
      have hproc := process_order_books_inv eng.matching_engine
        { o with timestamp := now, remaining_quantity := o.quantity } now h.1 h.2
        (by show o.filled_quantity + o.quantity = o.quantity
            rw [hf]
            exact zero_add _)
        (Or.inl hst)
      rcases hpo : eng.matching_engine.process_order
          { o with timestamp := now, remaining_quantity := o.quantity } now
        with ⟨me2, res⟩
      rw [hpo] at hproc
      try rw [hpo]
      try dsimp only at hproc ⊢
      cases res
      · exact hproc
      · exact hproc

theorem cancel_books_inv (eng : TradingEngine) (order_id : Nat)
    (h : EngineInv eng) : EngineInv (eng.cancel_order order_id).1 := by
  unfold TradingEngine.cancel_order
  cases hl : lookupA eng.orders order_id with
  | none => exact h
  | some o =>
      try dsimp only
      have hmc := mcancel_books_inv eng.matching_engine order_id h.1 h.2
      rcases hcm : eng.matching_engine.cancel_order order_id with ⟨me2, b⟩
      rw [hcm] at hmc
      try rw [hcm]
      try dsimp only at hmc ⊢
      exact hmc

/-- The well-formed-submission discipline of the claim (as amended): a
submitted order starts with `filled_quantity = 0` and status `Pending`;
cancellations are unrestricted. -/
def GoodOp : EngineOp → Prop
  | EngineOp.submit o _ => o.filled_quantity = 0 ∧ o.status = OrderStatus.Pending
  | EngineOp.cancel _ => True

instance (op : EngineOp) : Decidable (GoodOp op) := by
  cases op with
  | submit o now =>
      exact decidable_of_iff
        (o.filled_quantity = 0 ∧ o.status = OrderStatus.Pending) Iff.rfl
  | cancel i => exact isTrue trivial

theorem runOps_inv (eng : TradingEngine) (ops : List EngineOp)
    (h : EngineInv eng) (hops : ∀ op ∈ ops, GoodOp op) :
    EngineInv (runOps eng ops) := by
  induction ops generalizing eng with
  | nil => exact h
  | cons op rest ih =>
      simp only [runOps, List.foldl_cons]
      have hstep : EngineInv (applyOp eng op) := by
        cases op with
        | submit o now =>
            obtain ⟨hf, hst⟩ := hops _ (List.mem_cons_self _ _)
            exact submit_books_inv eng o now hf hst h
        | cancel i => exact cancel_books_inv eng i h
      exact ih (applyOp eng op) hstep
        (fun op2 h2 => hops op2 (List.mem_cons_of_mem op h2))

/-- An order submitted already carrying the terminal status `Expired`:
`validate_order` does not inspect `status`, so it rests as-is. -/
def expiredStatusOrder : Order :=
  { baseOrder with id := 12, status := OrderStatus.Expired }

/-- C9 counterexample: the claim constrains submitted orders only by
`filled_quantity = 0`. Submitting `expiredStatusOrder` (filled 0, but
status `Expired`) into a fresh engine leaves a resting order whose status
is neither `Pending` nor `PartiallyFilled`. -/
theorem resting_order_bad_status :
    expiredStatusOrder.filled_quantity = 0
    ∧ ∃ sb ∈ (runOps TradingEngine.empty
          [EngineOp.submit expiredStatusOrder 1]).matching_engine.buy_orders
        ++ (runOps TradingEngine.empty
          [EngineOp.submit expiredStatusOrder 1]).matching_engine.sell_orders,
      ∃ e ∈ flattenBook sb.2,
        ¬ (e.order.status = OrderStatus.Pending
            ∨ e.order.status = OrderStatus.PartiallyFilled) := by
  with_unfolding_all decide

/-- C9 (amended with: each submitted order also starts with status
`Pending`): after any sequence of submissions and cancellations from an
invariant-satisfying state, every order resting in either side of the
book satisfies `filled_quantity + remaining_quantity = quantity`,
`remaining_quantity > 0`, and `status ∈ {Pending, PartiallyFilled}`. -/
theorem resting_orders_invariant (eng : TradingEngine) (ops : List EngineOp)
    (h : EngineInv eng) (hops : ∀ op ∈ ops, GoodOp op) :
    ∀ sb ∈ (runOps eng ops).matching_engine.buy_orders
        ++ (runOps eng ops).matching_engine.sell_orders,
      ∀ e ∈ flattenBook sb.2,
        e.order.filled_quantity + e.order.remaining_quantity = e.order.quantity
        ∧ 0 < e.order.remaining_quantity
        ∧ (e.order.status = OrderStatus.Pending
            ∨ e.order.status = OrderStatus.PartiallyFilled) := by
  have hinv := runOps_inv eng ops h hops
  intro sb hsb e he
  rcases List.mem_append.mp hsb with hm | hm
  · exact hinv.1 sb hm e he
  · exact hinv.2 sb hm e he

/-- Buy 40 @ 98.50 (order 6, account 21): partially fills
`restingSell100`, leaving it resting with remaining 60. -/
def partialBuy40 : Order :=
  { baseOrder with
    id := 6
    quantity := 40
    price := some (197 / 2)
    account_id := 21 }

/-- The scenario-6-style operation sequence used by the C9 witness. -/
def opsW : List EngineOp :=
  [EngineOp.submit restingSell100 1, EngineOp.submit partialBuy40 2]

/-- C9 witness: a fresh engine, a resting sell then a partial cross; the
book is nonempty (the partially filled sell survives) and the invariant
holds for it. -/
theorem resting_orders_invariant_witness :
    (∃ sb ∈ (runOps TradingEngine.empty opsW).matching_engine.sell_orders,
        ¬ flattenBook sb.2 = [])
    ∧ ∀ sb ∈ (runOps TradingEngine.empty opsW).matching_engine.buy_orders
        ++ (runOps TradingEngine.empty opsW).matching_engine.sell_orders,
      ∀ e ∈ flattenBook sb.2,
        e.order.filled_quantity + e.order.remaining_quantity = e.order.quantity
        ∧ 0 < e.order.remaining_quantity
        ∧ (e.order.status = OrderStatus.Pending
            ∨ e.order.status = OrderStatus.PartiallyFilled) :=
  ⟨by with_unfolding_all decide,
    resting_orders_invariant TradingEngine.empty opsW
      ⟨fun sb h => absurd h (List.not_mem_nil sb),
        fun sb h => absurd h (List.not_mem_nil sb)⟩
      (by with_unfolding_all decide)⟩

end VV
